import Mathlib

/-!
# Waterfall visualiser: frame scheduling and magnitude normalisation

A shallow embedding of `sink_setcaps` and `sink_chain` from
`gst/cairovis/cairovis_waterfall.c`.

* `guint64` / `guint` values are natural numbers; every C operation that can wrap
  or truncate is written with an explicit `% 2 ^ 64` or `% 2 ^ 32`.
* `gint` values are integers. The one `gint` product of the source, `fpsd * rate`, wraps
  to 32 bits as compilers make it do; C leaves that overflow undefined, and every
  statement below that depends on the product assumes that it fits.
* `available_bytes / stride_bytes` is Lean's division, which gives 0 for a zero stride,
  where C leaves the division undefined.
* The adapter is the list of bytes it holds.
* The `while (TRUE)` loop is a single-iteration function `chain_iter` driven by
  `chain_loop` with a fuel argument; fuel running out is reported as
  `Outcome.running` (the C call has not returned yet).
* Collaborators outside the file (caps negotiation, surface allocation, the
  downstream pad) are the fields of `Env`.
* Drawing (axes, time label, pixels) and the timestamp and duration of the output
  buffer are outside the embedding, except for the normalisation of a sample in the
  pixel loop.
-/

namespace CairoVis

set_option maxRecDepth 100000

/-! ## Machine integers and GStreamer constants -/

/-- Largest `guint64`. -/
def G_MAXUINT64 : Nat := 2 ^ 64 - 1

/-- The "no timestamp" sentinel, `(GstClockTime) -1`. -/
def GST_CLOCK_TIME_NONE : Nat := G_MAXUINT64

/-- The "no offset" sentinel, `(guint64) -1`. -/
def GST_BUFFER_OFFSET_NONE : Nat := G_MAXUINT64

/-- One second in nanoseconds. -/
def GST_SECOND : Int := 1000000000

/-- Conversion of a value to `guint` (32 bits). -/
def to_guint (n : Nat) : Nat := n % 2 ^ 32

/-- Conversion of a value to `guint64`. -/
def to_guint64 (n : Nat) : Nat := n % 2 ^ 64

/-- Subtraction of two `guint` values. -/
def guint_sub (a b : Nat) : Nat := (a + 2 ^ 32 - b) % 2 ^ 32

/-- Subtraction of two `guint64` values. -/
def guint64_sub (a b : Nat) : Nat := (a + 2 ^ 64 - b) % 2 ^ 64

/-- Product of two `gint` values, wrapped to 32 bits two's complement. -/
def gint_mul (a b : Int) : Int := (a * b + 2 ^ 31) % 2 ^ 32 - 2 ^ 31

/-- Modelled from the spec: the GStreamer utility `gst_util_uint64_scale_int_round`
(the "exact integer scaling, round-to-nearest" of the scheduler) is a library routine
outside the source file. It returns `val * num / denom` rounded to the nearest integer
(a tie goes up: the correction added before the division is `denom >> 1`), gives
`G_MAXUINT64` when the result does not fit in 64 bits, and also gives `G_MAXUINT64`
when `denom > 0` or `num >= 0` fails. -/
def gst_util_uint64_scale_int_round (val : Nat) (num denom : Int) : Nat :=
  if denom ≤ 0 ∨ num < 0 then G_MAXUINT64
  else min G_MAXUINT64 ((val * num.toNat + denom.toNat / 2) / denom.toNat)

/-! ## Data model -/

/-- Values of `GstFlowReturn` that can reach `sink_chain`. -/
inductive GstFlowReturn where
  | OK
  | NOT_LINKED
  | WRONG_STATE
  | UNEXPECTED
  | NOT_NEGOTIATED
  | ERROR
  | NOT_SUPPORTED
  deriving DecidableEq, Repr

/-- An input buffer: payload bytes and the four timing fields. -/
structure GstBuffer (α : Type) where
  data : List α
  timestamp : Nat
  duration : Nat
  offset : Nat
  offset_end : Nat
  deriving DecidableEq, Repr

/-- The caps fields read by `sink_setcaps`; a field is `none` when
`gst_structure_get_int` cannot read it. -/
structure GstCaps where
  channels : Option Int
  rate : Option Int
  deriving DecidableEq, Repr

/-- The fields of `CairoVisWaterfall` (and of its base, `xscale` and `yscale`) that
`sink_setcaps` and the scheduling part of `sink_chain` read or write. -/
structure CairoVisWaterfall (α : Type) where
  xscale : Nat
  yscale : Nat
  nchannels : Int
  rate : Int
  adapter : List α
  t0 : Nat
  offset0 : Nat
  last_offset_end : Nat
  frame_number : Nat
  history : Nat
  deriving DecidableEq, Repr

/-- What the collaborators of one `sink_chain` call answer: whether
`cairovis_base_negotiate_srcpad` succeeds, the frame rate parsed from the source
caps, and the results of `cairovis_base_buffer_surface_alloc` and `gst_pad_push`
for the frame with a given number. -/
structure Env where
  negotiate : Bool
  fpsn : Int
  fpsd : Int
  alloc : Nat → GstFlowReturn
  push : Nat → GstFlowReturn

/-- One output frame handed to `gst_pad_push`, with the window it was drawn from.
`offset` and `offset_end` are `GST_BUFFER_OFFSET` and `GST_BUFFER_OFFSET_END` of the
output buffer; `desired_offset` and `desired_offset_end` are the locals of that
name; `data` is what `gst_adapter_peek` returned (`none` for the `NULL` of an empty
window); `pushed` is what `gst_pad_push` returned.
The last three fields record the state around the emission: `entry_last_offset_end`
is `element->last_offset_end` when the iteration starts, `last_offset_end` and
`available_samples` are the values when the frame is drawn. -/
structure Frame (α : Type) where
  offset : Nat
  offset_end : Nat
  desired_offset : Nat
  desired_offset_end : Nat
  data : Option (List α)
  pushed : GstFlowReturn
  entry_last_offset_end : Nat
  last_offset_end : Nat
  available_samples : Nat
  deriving DecidableEq, Repr

/-- How a call ends: it returned a flow value, it is still in the loop when the fuel
is used up, or it asked the adapter for more than the adapter holds. (GStreamer logs a
critical warning for such a request and the C code carries on; the embedding stops the
call there, and the request is shown below never to happen.) -/
inductive Outcome where
  | returned (r : GstFlowReturn)
  | running
  | adapter_fault
  deriving DecidableEq, Repr

/-- The element and the loop-carried locals of `sink_chain`. -/
structure Locals (α : Type) where
  element : CairoVisWaterfall α
  available_bytes : Nat
  available_samples : Nat
  deriving DecidableEq, Repr

/-- Result of one pass through the loop body. -/
inductive Step (α : Type) where
  | done (ls : Locals α) (frames : List (Frame α)) (o : Outcome)
  | more (ls : Locals α) (f : Frame α)

/-- Result of a `sink_chain` call. -/
structure ChainResult (α : Type) where
  element : CairoVisWaterfall α
  frames : List (Frame α)
  outcome : Outcome
  deriving DecidableEq, Repr

/-! ## The adapter -/

/-- Modelled from the spec: `gst_adapter_available`, the number of bytes buffered
(the Sample Buffer of the spec is the GStreamer adapter, a library object). -/
def gst_adapter_available {α : Type} (adapter : List α) : Nat := adapter.length

/-- Modelled from the spec: `gst_adapter_flush`, which discards the first `n` bytes
and fails when `n` is more than what is buffered. -/
def gst_adapter_flush {α : Type} (adapter : List α) (n : Nat) : Option (List α) :=
  if n ≤ adapter.length then some (adapter.drop n) else none

/-- Modelled from the spec: `gst_adapter_peek`, a view of the first `n` bytes that
fails when `n` is more than what is buffered. -/
def gst_adapter_peek {α : Type} (adapter : List α) (n : Nat) : Option (List α) :=
  if n ≤ adapter.length then some (adapter.take n) else none

/-! ## `sink_setcaps` -/

/-- `sink_setcaps`: read `channels` and `rate` (each only when present), clear the
adapter, report whether both were read. -/
def sink_setcaps {α : Type} (element : CairoVisWaterfall α) (caps : GstCaps) :
    CairoVisWaterfall α × Bool :=
  let nchannels := caps.channels.getD element.nchannels
  let rate := caps.rate.getD element.rate
  ({ element with nchannels := nchannels, rate := rate, adapter := [] },
    caps.channels.isSome && caps.rate.isSome)

/-! ## `sink_chain` -/

/-- The four validity tests on the input buffer. -/
def buffer_is_valid {α : Type} (inbuf : GstBuffer α) : Bool :=
  decide (inbuf.timestamp ≠ GST_CLOCK_TIME_NONE)
    && decide (inbuf.duration ≠ GST_CLOCK_TIME_NONE)
    && decide (inbuf.offset ≠ GST_BUFFER_OFFSET_NONE)
    && decide (inbuf.offset_end ≠ GST_BUFFER_OFFSET_NONE)

/-- The local `stride_bytes`: `sizeof (double) * element->nchannels` stored in a
`guint`. -/
def stride_bytes (nchannels : Int) : Nat := ((8 * nchannels) % 2 ^ 32).toNat

/-- The local `history_samples`. -/
def history_samples (history : Nat) (rate : Int) : Nat :=
  gst_util_uint64_scale_int_round history rate GST_SECOND

/-- The local `desired_offset_end` for a given `frame_number`. -/
def desired_offset_end (fpsn fpsd rate : Int) (frame_number : Nat) : Nat :=
  gst_util_uint64_scale_int_round frame_number (gint_mul fpsd rate) fpsn

/-- The local `desired_offset` for a given `frame_number`. -/
def desired_offset (hist : Nat) (fpsn fpsd rate : Int) (frame_number : Nat) : Nat :=
  let d := gst_util_uint64_scale_int_round frame_number (gint_mul fpsd rate) fpsn
  if hist < d then guint64_sub d hist else 0

/-- The local `desired_samples` for a given `frame_number`. -/
def desired_samples (hist : Nat) (fpsn fpsd rate : Int) (frame_number : Nat) : Nat :=
  guint64_sub (desired_offset_end fpsn fpsd rate frame_number)
    (desired_offset hist fpsn fpsd rate frame_number)

/-- One pass through the body of the `while (TRUE)` loop of `sink_chain`. -/
def chain_iter {α : Type} (env : Env) (hist stride : Nat) (ls : Locals α) : Step α :=
  let element := ls.element
  let d_offset := desired_offset hist env.fpsn env.fpsd element.rate element.frame_number
  let d_offset_end := desired_offset_end env.fpsn env.fpsd element.rate element.frame_number
  let d_samples := desired_samples hist env.fpsn env.fpsd element.rate element.frame_number
  let d_bytes := to_guint64 (d_samples * stride)
  -- the three-way test on `last_offset_end`
  let flushed : Option (Option (Locals α)) :=
    if element.last_offset_end < d_offset then
      let flush_samples := to_guint (guint64_sub d_offset element.last_offset_end)
      let flush_samples :=
        if flush_samples > ls.available_samples then ls.available_samples else flush_samples
      let flush_bytes := to_guint (flush_samples * stride)
      match gst_adapter_flush element.adapter flush_bytes with
      | none => some none
      | some adapter =>
        some (some
          { element :=
              { element with
                adapter := adapter
                last_offset_end := to_guint64 (element.last_offset_end + flush_samples) }
            available_bytes := guint_sub ls.available_bytes flush_bytes
            available_samples := guint_sub ls.available_samples flush_samples })
    else if element.last_offset_end > d_offset then none
    else some (some ls)
  match flushed with
  | none => Step.done ls [] (Outcome.returned GstFlowReturn.OK)
  | some none => Step.done ls [] Outcome.adapter_fault
  | some (some ls1) =>
    if ls1.available_samples < d_samples then
      Step.done ls1 [] (Outcome.returned GstFlowReturn.OK)
    else if env.alloc element.frame_number ≠ GstFlowReturn.OK then
      Step.done ls1 [] (Outcome.returned (env.alloc element.frame_number))
    else
      let peeked : Option (Option (List α)) :=
        if d_samples > 0 then
          match gst_adapter_peek ls1.element.adapter d_bytes with
          | none => none
          | some view => some (some view)
        else some none
      match peeked with
      | none => Step.done ls1 [] Outcome.adapter_fault
      | some data =>
        let frame : Frame α :=
          { offset := element.frame_number
            offset_end := to_guint64 (element.frame_number + 1)
            desired_offset := d_offset
            desired_offset_end := d_offset_end
            data := data
            pushed := env.push element.frame_number
            entry_last_offset_end := element.last_offset_end
            last_offset_end := ls1.element.last_offset_end
            available_samples := ls1.available_samples }
        if env.push element.frame_number ≠ GstFlowReturn.OK then
          Step.done ls1 [frame] (Outcome.returned (env.push element.frame_number))
        else
          Step.more
            { ls1 with
              element :=
                { ls1.element with
                  frame_number := to_guint64 (ls1.element.frame_number + 1) } }
            frame

/-- The `while (TRUE)` loop, run for at most `fuel` passes. -/
def chain_loop {α : Type} (env : Env) (hist stride : Nat) :
    Nat → Locals α → ChainResult α
  | 0, ls => { element := ls.element, frames := [], outcome := Outcome.running }
  | fuel + 1, ls =>
    match chain_iter env hist stride ls with
    | Step.done ls1 frames o => { element := ls1.element, frames := frames, outcome := o }
    | Step.more ls1 f =>
      let r := chain_loop env hist stride fuel ls1
      { element := r.element, frames := f :: r.frames, outcome := r.outcome }

/-- The element after the origin block and `gst_adapter_push`. -/
def chain_accept {α : Type} (element : CairoVisWaterfall α) (inbuf : GstBuffer α) :
    CairoVisWaterfall α :=
  let element :=
    if element.t0 = GST_CLOCK_TIME_NONE then
      { element with
        t0 := inbuf.timestamp
        offset0 := inbuf.offset
        last_offset_end := 0
        frame_number := 0 }
    else element
  { element with adapter := element.adapter ++ inbuf.data }

/-- The locals on entry to the loop. -/
def chain_locals {α : Type} (element : CairoVisWaterfall α) : Locals α :=
  let available_bytes := to_guint (gst_adapter_available element.adapter)
  { element := element
    available_bytes := available_bytes
    available_samples := available_bytes / stride_bytes element.nchannels }

/-- `sink_chain`, with at most `fuel` passes through its loop. -/
def sink_chain {α : Type} (fuel : Nat) (env : Env) (element : CairoVisWaterfall α)
    (inbuf : GstBuffer α) : ChainResult α :=
  if element.xscale ≠ 0 ∨ element.yscale ≠ 0 then
    { element := element, frames := [], outcome := Outcome.returned GstFlowReturn.ERROR }
  else if buffer_is_valid inbuf = false then
    { element := element, frames := [], outcome := Outcome.returned GstFlowReturn.ERROR }
  else
    let element := chain_accept element inbuf
    if env.negotiate = false then
      { element := element, frames := [],
        outcome := Outcome.returned GstFlowReturn.NOT_NEGOTIATED }
    else
      chain_loop env (history_samples element.history element.rate)
        (stride_bytes element.nchannels) fuel (chain_locals element)

/-- The part of `instance_init` that touches the scheduler state: a new adapter and
unset origin fields, on the instance memory as allocated. -/
def instance_init {α : Type} (element : CairoVisWaterfall α) : CairoVisWaterfall α :=
  { element with
    adapter := []
    t0 := GST_CLOCK_TIME_NONE
    offset0 := GST_BUFFER_OFFSET_NONE
    last_offset_end := GST_BUFFER_OFFSET_NONE }

/-! ## Magnitude normalisation (linear scale) -/

/-- The body of the pixel loop of `sink_chain` under linear scale: the value handed
to `colormap_map` for the sample `x`, given the locals `zmin` and `zmax`. Samples
are exact rationals here, where the source has `double`. -/
def normalise (zmin zmax x : ℚ) : ℚ :=
  let invzspan := 1 / (zmax - zmin)
  if x < zmin then 0
  else if x > zmax then 1
  else (x - zmin) * invzspan

/-- The pixel loop over a whole window, before colour mapping. -/
def normalise_window (zmin zmax : ℚ) (data : List ℚ) : List ℚ :=
  data.map (normalise zmin zmax)

/-! ## Streams of calls -/

/-- One `sink_chain` call: the fuel for its loop, what the collaborators answer, and
the input buffer. -/
structure Call (α : Type) where
  fuel : Nat
  env : Env
  inbuf : GstBuffer α

/-- A sequence of `sink_chain` calls on one element: the element afterwards and all
frames handed downstream, in order. A call that is cut off by its fuel leaves the
element as it is at that point. -/
def chain_run {α : Type} : CairoVisWaterfall α → List (Call α) →
    CairoVisWaterfall α × List (Frame α)
  | element, [] => (element, [])
  | element, c :: rest =>
    let r := sink_chain c.fuel c.env element c.inbuf
    let rr := chain_run r.element rest
    (rr.1, r.frames ++ rr.2)

/-- The bytes that one call appends to the adapter: the payload, when the buffer passes
the two tests at the top of `sink_chain`. -/
def accepted_data {α : Type} (element : CairoVisWaterfall α) (inbuf : GstBuffer α) : List α :=
  if element.xscale ≠ 0 ∨ element.yscale ≠ 0 then []
  else if buffer_is_valid inbuf = false then []
  else inbuf.data

/-- The bytes that a sequence of calls appends to the adapter, in order. -/
def appended {α : Type} (element : CairoVisWaterfall α) (calls : List (Call α)) : List α :=
  (calls.map (fun c => accepted_data element c.inbuf)).flatten

/-- The frames that downstream accepted. -/
def pushed_ok {α : Type} (frames : List (Frame α)) : List (Frame α) :=
  frames.filter (fun f => decide (f.pushed = GstFlowReturn.OK))

/-! ## The scenario of the specification -/

/-- Collaborators of the scenario: negotiation succeeds, the frame rate is 1/1, and
downstream accepts every frame. -/
def scenario_env : Env :=
  { negotiate := true, fpsn := 1, fpsd := 1,
    alloc := fun _ => GstFlowReturn.OK, push := fun _ => GstFlowReturn.OK }

/-- Instance memory as allocated (zero-filled), with the configuration of the scenario:
2 channels, rate 4 and the given history (in nanoseconds). -/
def scenario_memory (history : Nat) : CairoVisWaterfall Nat :=
  { xscale := 0, yscale := 0, nchannels := 2, rate := 4, adapter := [], t0 := 0,
    offset0 := 0, last_offset_end := 0, frame_number := 0, history := history }

/-- A new element with the configuration of the scenario. -/
def scenario_element (history : Nat) : CairoVisWaterfall Nat :=
  instance_init (scenario_memory history)

/-- One buffer of 8 samples (128 bytes for 2 channels of `double`) at timestamp 0. -/
def scenario_buffer : GstBuffer Nat :=
  { data := List.range 128, timestamp := 0, duration := 2000000000, offset := 0,
    offset_end := 8 }

/-- The scenario call: the scenario buffer, with fuel for 10 passes. -/
def scenario_call : Call Nat :=
  { fuel := 10, env := scenario_env, inbuf := scenario_buffer }

/-- The scenario call with a downstream that refuses frame 1. -/
def scenario_call_refused : Call Nat :=
  { fuel := 10
    env :=
      { negotiate := true, fpsn := 1, fpsd := 1, alloc := fun _ => GstFlowReturn.OK,
        push := fun k => if k = 1 then GstFlowReturn.WRONG_STATE else GstFlowReturn.OK }
    inbuf := scenario_buffer }

/-- A second buffer of 8 samples, with other bytes, that follows the scenario buffer. -/
def scenario_buffer_2 : GstBuffer Nat :=
  { data := (List.range 128).map (fun x => x + 1000), timestamp := 2000000000,
    duration := 2000000000, offset := 8, offset_end := 16 }

/-- The call with the second buffer. -/
def scenario_call_2 : Call Nat :=
  { fuel := 10, env := scenario_env, inbuf := scenario_buffer_2 }

/-- Frame 3 of the stream "scenario call with frame 1 refused, then the second buffer":
the window `[4, 12)`, drawn after a flush of 4 samples, with the last 4 samples of the
first buffer followed by the first 4 samples of the second. -/
def scenario_frame_3 : Frame Nat :=
  { offset := 3, offset_end := 4, desired_offset := 4, desired_offset_end := 12,
    data := some ((List.range 128).drop 64 ++ ((List.range 128).map (fun x => x + 1000)).take 64),
    pushed := GstFlowReturn.OK,
    entry_last_offset_end := 0, last_offset_end := 4, available_samples := 12 }

/-- Frame 3 as it is drawn when `sink_setcaps` comes between the scenario buffer and the
second buffer: the window `[4, 12)` again, drawn from the second buffer alone. -/
def scenario_frame_after_caps : Frame Nat :=
  { offset := 3, offset_end := 4, desired_offset := 4, desired_offset_end := 12,
    data := some ((List.range 128).map (fun x => x + 1000)),
    pushed := GstFlowReturn.OK,
    entry_last_offset_end := 4, last_offset_end := 4, available_samples := 8 }

/-- The scenario element after the scenario call: streaming, three frames pushed. -/
def scenario_streaming : CairoVisWaterfall Nat :=
  (sink_chain 10 scenario_env (scenario_element 2000000000) scenario_buffer).element

/-- Caps that repeat the format of the scenario. -/
def scenario_caps : GstCaps := { channels := some 2, rate := some 4 }

/-! ## Proof devices -/

/-- The locals agree with the adapter: the byte count is not more than what the
adapter holds, the sample count times the stride is not more than the byte count, and
both fit a `guint`. -/
def LocalsOk {α : Type} (stride : Nat) (ls : Locals α) : Prop :=
  ls.available_bytes ≤ ls.element.adapter.length
    ∧ ls.available_samples * stride ≤ ls.available_bytes
    ∧ ls.available_bytes < 2 ^ 32
    ∧ ls.available_samples < 2 ^ 32

/-- The locals after the flush branch has discarded `n` samples. -/
def after_flush {α : Type} (stride : Nat) (ls : Locals α) (n : Nat) : Locals α :=
  { element :=
      { ls.element with
        adapter := ls.element.adapter.drop (n * stride)
        last_offset_end := to_guint64 (ls.element.last_offset_end + n) }
    available_bytes := ls.available_bytes - n * stride
    available_samples := ls.available_samples - n }

/-- The locals after the three-way test on `last_offset_end`, when that test does not
leave the loop: flushed towards the window start, by as much as is buffered. -/
def loop_flush {α : Type} (env : Env) (hist stride : Nat) (ls : Locals α) : Locals α :=
  let s := desired_offset hist env.fpsn env.fpsd ls.element.rate ls.element.frame_number
  if ls.element.last_offset_end < s then
    after_flush stride ls
      (min (to_guint (s - ls.element.last_offset_end)) ls.available_samples)
  else ls

/-- The frame that a pass of the loop draws, given the locals `ls` on entry. -/
def loop_frame {α : Type} (env : Env) (hist stride : Nat) (ls : Locals α) : Frame α :=
  let s := desired_offset hist env.fpsn env.fpsd ls.element.rate ls.element.frame_number
  let e := desired_offset_end env.fpsn env.fpsd ls.element.rate ls.element.frame_number
  let ls1 := loop_flush env hist stride ls
  { offset := ls.element.frame_number
    offset_end := to_guint64 (ls.element.frame_number + 1)
    desired_offset := s
    desired_offset_end := e
    data := if 0 < e - s then some (ls1.element.adapter.take ((e - s) * stride)) else none
    pushed := env.push ls.element.frame_number
    entry_last_offset_end := ls.element.last_offset_end
    last_offset_end := ls1.element.last_offset_end
    available_samples := ls1.available_samples }

/-- The locals after `element->frame_number++`. -/
def bump_frame {α : Type} (ls : Locals α) : Locals α :=
  { ls with
    element := { ls.element with frame_number := to_guint64 (ls.element.frame_number + 1) } }

/-- The loop body written without the adapter failure cases and without the `guint`
wrap-arounds; `chain_iter_eq_flat` shows that it is `chain_iter` whenever the locals
agree with the adapter. -/
def chain_iter_flat {α : Type} (env : Env) (hist stride : Nat) (ls : Locals α) : Step α :=
  let s := desired_offset hist env.fpsn env.fpsd ls.element.rate ls.element.frame_number
  let e := desired_offset_end env.fpsn env.fpsd ls.element.rate ls.element.frame_number
  if s < ls.element.last_offset_end then
    Step.done ls [] (Outcome.returned GstFlowReturn.OK)
  else if (loop_flush env hist stride ls).available_samples < e - s then
    Step.done (loop_flush env hist stride ls) [] (Outcome.returned GstFlowReturn.OK)
  else if env.alloc ls.element.frame_number ≠ GstFlowReturn.OK then
    Step.done (loop_flush env hist stride ls) []
      (Outcome.returned (env.alloc ls.element.frame_number))
  else if env.push ls.element.frame_number ≠ GstFlowReturn.OK then
    Step.done (loop_flush env hist stride ls) [loop_frame env hist stride ls]
      (Outcome.returned (env.push ls.element.frame_number))
  else
    Step.more (bump_frame (loop_flush env hist stride ls)) (loop_frame env hist stride ls)

/-- Two element states have the same configuration: they differ at most in the adapter,
`last_offset_end` and `frame_number`. -/
def SameConfig {α : Type} (a b : CairoVisWaterfall α) : Prop :=
  a.xscale = b.xscale ∧ a.yscale = b.yscale ∧ a.nchannels = b.nchannels ∧ a.rate = b.rate
    ∧ a.t0 = b.t0 ∧ a.offset0 = b.offset0 ∧ a.history = b.history

/-- The adapter holds the stream `received` without its first `last_offset_end`
samples. -/
def DataInv {α : Type} (stride : Nat) (received : List α) (ls : Locals α) : Prop :=
  LocalsOk stride ls
    ∧ (stride = 0 → ls.available_samples = 0)
    ∧ ls.element.last_offset_end * stride ≤ received.length
    ∧ ls.element.adapter = received.drop (ls.element.last_offset_end * stride)

/-- What holds of a frame with a non-empty window whose flush request was not truncated
to 32 bits: the flush reached the window start, the window is buffered, it lies inside
the stream `received`, and the peeked bytes are the bytes of the stream at the window. -/
def FrameOk {α : Type} (stride : Nat) (received : List α) (f : Frame α) : Prop :=
  f.desired_offset < f.desired_offset_end →
  f.desired_offset - f.entry_last_offset_end < 2 ^ 32 →
    f.last_offset_end = f.desired_offset
      ∧ f.desired_offset_end - f.desired_offset ≤ f.available_samples
      ∧ f.desired_offset_end * stride ≤ received.length
      ∧ f.data = some ((received.drop (f.desired_offset * stride)).take
          ((f.desired_offset_end - f.desired_offset) * stride))
      ∧ 0 < stride

/-- What holds of a frame with a non-empty window whose flush request was not truncated
to 32 bits, whatever the element state: the flush reached the window start, the window
is buffered, and the peek gave as many bytes as the window has. -/
def FrameBuffered {α : Type} (stride : Nat) (f : Frame α) : Prop :=
  f.desired_offset < f.desired_offset_end →
  f.desired_offset - f.entry_last_offset_end < 2 ^ 32 →
    f.last_offset_end = f.desired_offset
      ∧ f.desired_offset_end - f.desired_offset ≤ f.available_samples
      ∧ ∃ d, f.data = some d
          ∧ d.length = (f.desired_offset_end - f.desired_offset) * stride

/-- Invariant of a stream of calls that has appended the bytes `received`: either no
buffer was accepted yet and the adapter is empty, or the origin is set and the adapter
holds `received` without its first `last_offset_end` samples. -/
def RunInv {α : Type} (received : List α) (e : CairoVisWaterfall α) : Prop :=
  (e.t0 = GST_CLOCK_TIME_NONE ∧ e.adapter = [] ∧ received = [])
    ∨ (e.t0 ≠ GST_CLOCK_TIME_NONE ∧ e.last_offset_end < 2 ^ 64
        ∧ e.last_offset_end * stride_bytes e.nchannels ≤ received.length
        ∧ e.adapter = received.drop (e.last_offset_end * stride_bytes e.nchannels))

/-! ## Arithmetic of the machine operations -/

theorem guint64_sub_of_le {a b : Nat} (hb : b ≤ a) (ha : a < 2 ^ 64) :
    guint64_sub a b = a - b := by
  unfold guint64_sub
  omega

theorem guint_sub_of_le {a b : Nat} (hb : b ≤ a) (ha : a < 2 ^ 32) :
    guint_sub a b = a - b := by
  unfold guint_sub
  omega

theorem to_guint_of_lt {a : Nat} (ha : a < 2 ^ 32) : to_guint a = a := by
  unfold to_guint
  omega

theorem to_guint64_of_lt {a : Nat} (ha : a < 2 ^ 64) : to_guint64 a = a := by
  unfold to_guint64
  omega

theorem to_guint_le (a : Nat) : to_guint a ≤ a := by
  unfold to_guint
  exact Nat.mod_le _ _

theorem gint_mul_of_fits {a b : Int} (h0 : 0 ≤ a * b) (h1 : a * b < 2 ^ 31) :
    gint_mul a b = a * b := by
  unfold gint_mul
  omega

theorem scale_le (v : Nat) (num denom : Int) :
    gst_util_uint64_scale_int_round v num denom ≤ G_MAXUINT64 := by
  unfold gst_util_uint64_scale_int_round
  split_ifs
  · exact le_refl _
  · exact min_le_left _ _

theorem scale_lt (v : Nat) (num denom : Int) :
    gst_util_uint64_scale_int_round v num denom < 2 ^ 64 := by
  have h := scale_le v num denom
  unfold G_MAXUINT64 at h
  omega

theorem scale_eq (v : Nat) {num denom : Int} (hd : 0 < denom) (hn : 0 ≤ num) :
    gst_util_uint64_scale_int_round v num denom
      = min G_MAXUINT64 ((v * num.toNat + denom.toNat / 2) / denom.toNat) := by
  unfold gst_util_uint64_scale_int_round
  rw [if_neg]
  omega

theorem scale_mono {v w : Nat} (h : v ≤ w) (num denom : Int) :
    gst_util_uint64_scale_int_round v num denom
      ≤ gst_util_uint64_scale_int_round w num denom := by
  unfold gst_util_uint64_scale_int_round
  split_ifs
  · exact le_refl _
  · apply min_le_min (le_refl _)
    apply Nat.div_le_div_right
    have := Nat.mul_le_mul_right num.toNat h
    omega

/-- Integer division with the correction `d / 2` is rounding to nearest, ties up. -/
theorem round_div_eq_floor (a d : Nat) (hd : 0 < d) :
    (a + d / 2) / d = ⌊(a : ℚ) / d + 1 / 2⌋₊ := by
  symm
  rw [Nat.floor_eq_iff (by positivity)]
  have hdq : (0 : ℚ) < d := by exact_mod_cast hd
  have h1 : d * ((a + d / 2) / d) ≤ a + d / 2 := Nat.mul_div_le _ _
  have h2 : a + d / 2 < d * ((a + d / 2) / d + 1) := Nat.lt_mul_div_succ _ hd
  have h3 : 2 * (d / 2) ≤ d := Nat.mul_div_le _ _
  have h4 : d < 2 * (d / 2 + 1) := Nat.lt_mul_div_succ _ (by norm_num)
  set q := (a + d / 2) / d with hq
  have e1 : 2 * (d * q) ≤ 2 * a + d := by omega
  have e2 : 2 * a + d < 2 * (d * (q + 1)) := by omega
  have e1q : (2 : ℚ) * (d * q) ≤ 2 * a + d := by exact_mod_cast e1
  have e2q : (2 : ℚ) * a + d < 2 * (d * (q + 1)) := by exact_mod_cast e2
  constructor
  · rw [← sub_nonneg]
    have : (a : ℚ) / d + 1 / 2 - q = (2 * a + d - 2 * (d * q)) / (2 * d) := by
      field_simp
      ring
    rw [this]
    apply div_nonneg
    · linarith
    · positivity
  · rw [← sub_pos]
    have : (q : ℚ) + 1 - (a / d + 1 / 2) = (2 * (d * (q + 1)) - (2 * a + d)) / (2 * d) := by
      field_simp
      ring
    rw [this]
    apply div_pos
    · linarith
    · positivity

theorem desired_offset_end_lt (fpsn fpsd rate : Int) (k : Nat) :
    desired_offset_end fpsn fpsd rate k < 2 ^ 64 :=
  scale_lt _ _ _

theorem desired_offset_eq (hist : Nat) (fpsn fpsd rate : Int) (k : Nat) :
    desired_offset hist fpsn fpsd rate k
      = desired_offset_end fpsn fpsd rate k - hist := by
  have hlt := desired_offset_end_lt fpsn fpsd rate k
  unfold desired_offset
  unfold desired_offset_end at *
  simp only
  split_ifs with h
  · exact guint64_sub_of_le (le_of_lt h) hlt
  · omega

theorem desired_samples_eq (hist : Nat) (fpsn fpsd rate : Int) (k : Nat) :
    desired_samples hist fpsn fpsd rate k
      = min (desired_offset_end fpsn fpsd rate k) hist := by
  have hlt := desired_offset_end_lt fpsn fpsd rate k
  unfold desired_samples
  rw [desired_offset_eq, guint64_sub_of_le (Nat.sub_le _ _) hlt]
  omega

/-! ## Window arithmetic (C2, C7) -/

/-- C2, counterexample: with rate 4 and frame rate 1/1 the window of frame 0 does not
end at offset 4 and that of frame 1 does not end at offset 8. -/
theorem C2_counterexample :
    ¬ (desired_offset_end 1 1 4 0 = 4 ∧ desired_offset_end 1 1 4 1 = 8) := by
  decide

/-- C2, as amended: for positive rate and frame rate (with `fpsd * rate` fitting a
`gint`), the window end computed for frame `k` is `k * rate * fpsd / fpsn` rounded to
the nearest integer (ties up), capped at `G_MAXUINT64`; with rate 4 and frame rate
1/1, frame 0 ends at offset 0 and frame 1 at offset 4. -/
theorem C2_window_end (fpsn fpsd rate : Int) (k : Nat)
    (hrate : 0 < rate) (hn : 0 < fpsn) (hd : 0 < fpsd) (hfit : fpsd * rate < 2 ^ 31) :
    desired_offset_end fpsn fpsd rate k
        = min G_MAXUINT64 ⌊(k : ℚ) * rate * fpsd / fpsn + 1 / 2⌋₊
      ∧ desired_offset_end 1 1 4 0 = 0 ∧ desired_offset_end 1 1 4 1 = 4 := by
  refine ⟨?_, by decide, by decide⟩
  have hpos : 0 ≤ fpsd * rate := le_of_lt (mul_pos hd hrate)
  unfold desired_offset_end
  rw [gint_mul_of_fits hpos hfit, scale_eq k hn hpos,
    round_div_eq_floor _ _ (by omega : 0 < fpsn.toNat)]
  congr 3
  have h1 : ((fpsn.toNat : ℕ) : ℚ) = (fpsn : ℚ) := by
    have : ((fpsn.toNat : ℕ) : ℤ) = fpsn := Int.toNat_of_nonneg (le_of_lt hn)
    exact_mod_cast congrArg (fun z : ℤ => (z : ℚ)) this
  have h2 : (((fpsd * rate).toNat : ℕ) : ℚ) = (fpsd : ℚ) * rate := by
    have : (((fpsd * rate).toNat : ℕ) : ℤ) = fpsd * rate := Int.toNat_of_nonneg hpos
    exact_mod_cast congrArg (fun z : ℤ => (z : ℚ)) this
  push_cast
  rw [h1, h2]
  ring

/-- C2, witness. -/
theorem C2_window_end_witness :
    desired_offset_end 30 1 44100 7
        = min G_MAXUINT64 ⌊((7 : ℕ) : ℚ) * (44100 : ℤ) * (1 : ℤ) / (30 : ℤ) + 1 / 2⌋₊
      ∧ desired_offset_end 1 1 4 0 = 0 ∧ desired_offset_end 1 1 4 1 = 4 :=
  C2_window_end 30 1 44100 7 (by decide) (by decide) (by decide) (by decide)

/-- C7: for every frame the window length is `min desired_offset_end history_samples`;
the window start plus the length is the window end (the start never goes below 0), the
length never exceeds `history_samples`, and it is exactly `history_samples` once the
window end has reached `history_samples`. For a rate that is not negative,
`history_samples` is `history * rate / 10^9` rounded to the nearest integer, capped
at `G_MAXUINT64`. -/
theorem C7_window_length (history : Nat) (fpsn fpsd rate : Int) (k : Nat) :
    desired_samples (history_samples history rate) fpsn fpsd rate k
        = min (desired_offset_end fpsn fpsd rate k) (history_samples history rate)
      ∧ desired_offset (history_samples history rate) fpsn fpsd rate k
          + desired_samples (history_samples history rate) fpsn fpsd rate k
        = desired_offset_end fpsn fpsd rate k
      ∧ desired_samples (history_samples history rate) fpsn fpsd rate k
        ≤ history_samples history rate
      ∧ (history_samples history rate ≤ desired_offset_end fpsn fpsd rate k →
          desired_samples (history_samples history rate) fpsn fpsd rate k
            = history_samples history rate)
      ∧ (0 ≤ rate → history_samples history rate
          = min G_MAXUINT64 ⌊(history : ℚ) * rate / 1000000000 + 1 / 2⌋₊) := by
  rw [desired_samples_eq, desired_offset_eq]
  refine ⟨rfl, by omega, by omega, by omega, ?_⟩
  intro hr
  unfold history_samples GST_SECOND
  rw [scale_eq history (by norm_num) hr, round_div_eq_floor _ _ (by decide)]
  congr 3
  have h2 : ((rate.toNat : ℕ) : ℚ) = (rate : ℚ) := by
    have : ((rate.toNat : ℕ) : ℤ) = rate := Int.toNat_of_nonneg hr
    exact_mod_cast congrArg (fun z : ℤ => (z : ℚ)) this
  push_cast
  rw [h2]

/-- C7, witness: rate 4 and a history of 2 s give 8 samples. -/
theorem C7_window_length_witness :
    history_samples 2000000000 4
      = min G_MAXUINT64 ⌊((2000000000 : ℕ) : ℚ) * (4 : ℤ) / 1000000000 + 1 / 2⌋₊ :=
  (C7_window_length 2000000000 1 1 4 0).2.2.2.2 (by decide)

/-! ## Stream-format change (C8) -/

/-- C8, counterexample: the scenario element, streaming with origin 0, three frames
pushed and four samples flushed, keeps its origin, `frame_number` 3 and
`last_offset_end` 4 across `sink_setcaps`; the next buffer does not start a new origin
and its first frame is numbered 3. -/
theorem C8_counterexample :
    (sink_setcaps scenario_streaming scenario_caps).1.t0 = 0
      ∧ (sink_setcaps scenario_streaming scenario_caps).1.t0 ≠ GST_CLOCK_TIME_NONE
      ∧ (sink_setcaps scenario_streaming scenario_caps).1.offset0 ≠ GST_BUFFER_OFFSET_NONE
      ∧ (sink_setcaps scenario_streaming scenario_caps).1.frame_number = 3
      ∧ (sink_setcaps scenario_streaming scenario_caps).1.last_offset_end = 4
      ∧ (sink_chain 10 scenario_env (sink_setcaps scenario_streaming scenario_caps).1
            { scenario_buffer with timestamp := 7000000000, offset := 28,
                                   offset_end := 36 }).frames.map
          (fun f => f.offset) = [3] := by
  decide

/-- C8, as amended: `sink_setcaps` stores the channel count and rate it can read and
empties the adapter; `t0`, `offset0`, `frame_number`, `last_offset_end` and `history`
are left as they are, so when the origin was set the next buffer that is accepted does
not set it again and frame numbering goes on from `frame_number`. -/
theorem C8_setcaps {α : Type} (element : CairoVisWaterfall α) (caps : GstCaps)
    (inbuf : GstBuffer α) :
    (sink_setcaps element caps).1.adapter = []
      ∧ (sink_setcaps element caps).1.nchannels = caps.channels.getD element.nchannels
      ∧ (sink_setcaps element caps).1.rate = caps.rate.getD element.rate
      ∧ (sink_setcaps element caps).1.t0 = element.t0
      ∧ (sink_setcaps element caps).1.offset0 = element.offset0
      ∧ (sink_setcaps element caps).1.frame_number = element.frame_number
      ∧ (sink_setcaps element caps).1.last_offset_end = element.last_offset_end
      ∧ (sink_setcaps element caps).1.history = element.history
      ∧ (element.t0 ≠ GST_CLOCK_TIME_NONE →
          (chain_accept (sink_setcaps element caps).1 inbuf).t0 = element.t0
          ∧ (chain_accept (sink_setcaps element caps).1 inbuf).offset0 = element.offset0
          ∧ (chain_accept (sink_setcaps element caps).1 inbuf).frame_number
              = element.frame_number
          ∧ (chain_accept (sink_setcaps element caps).1 inbuf).last_offset_end
              = element.last_offset_end
          ∧ (chain_accept (sink_setcaps element caps).1 inbuf).adapter = inbuf.data) := by
  refine ⟨rfl, rfl, rfl, rfl, rfl, rfl, rfl, rfl, ?_⟩
  intro h
  simp [chain_accept, sink_setcaps, h]

/-- C8, witness. -/
theorem C8_setcaps_witness :
    (chain_accept (sink_setcaps
        ({ xscale := 0, yscale := 0, nchannels := 2, rate := 4, adapter := [1, 2, 3],
           t0 := 0, offset0 := 0, last_offset_end := 4, frame_number := 3,
           history := 2000000000 } : CairoVisWaterfall Nat)
        { channels := some 2, rate := some 4 }).1
      { data := [7], timestamp := 5, duration := 1, offset := 8,
        offset_end := 9 }).frame_number = 3 :=
  ((C8_setcaps _ _ _).2.2.2.2.2.2.2.2 (by decide)).2.2.1

/-! ## Magnitude normalisation (C10) -/

/-- C10: under linear scale with `zmin < zmax`, the value handed to the colour mapper
is `clamp ((v - zmin) / (zmax - zmin), 0, 1)`: exactly 0 below `zmin`, exactly 1 above
`zmax`, always within `[0, 1]`; with `zmin = 0` and `zmax = 1` it is `clamp (v, 0, 1)`. -/
theorem C10_normalise (zmin zmax v : ℚ) (h : zmin < zmax) :
    normalise zmin zmax v = max 0 (min 1 ((v - zmin) / (zmax - zmin)))
      ∧ (v < zmin → normalise zmin zmax v = 0)
      ∧ (v > zmax → normalise zmin zmax v = 1)
      ∧ 0 ≤ normalise zmin zmax v ∧ normalise zmin zmax v ≤ 1
      ∧ normalise 0 1 v = max 0 (min 1 v) := by
  have hspan : 0 < zmax - zmin := sub_pos.mpr h
  have key : ∀ (a b x : ℚ), a < b →
      normalise a b x = max 0 (min 1 ((x - a) / (b - a))) := by
    intro a b x hab
    have hs : 0 < b - a := sub_pos.mpr hab
    unfold normalise
    simp only
    split_ifs with h1 h2
    · have : (x - a) / (b - a) ≤ 0 :=
        div_nonpos_of_nonpos_of_nonneg (by linarith) (le_of_lt hs)
      rw [max_eq_left]
      exact le_trans (min_le_right _ _) this
    · have : 1 ≤ (x - a) / (b - a) := by
        rw [le_div_iff₀ hs]
        linarith
      rw [min_eq_left this, max_eq_right (by norm_num)]
    · have h3 : 0 ≤ (x - a) / (b - a) := div_nonneg (by linarith) (le_of_lt hs)
      have h4 : (x - a) / (b - a) ≤ 1 := by
        rw [div_le_iff₀ hs]
        linarith
      rw [min_eq_right h4, max_eq_right h3]
      field_simp
  refine ⟨key _ _ _ h, ?_, ?_, ?_, ?_, ?_⟩
  · intro hv
    unfold normalise
    simp [hv]
  · intro hv
    unfold normalise
    simp only
    rw [if_neg (by linarith), if_pos hv]
  · rw [key _ _ _ h]
    exact le_max_left _ _
  · rw [key _ _ _ h]
    exact max_le (by norm_num) (min_le_left _ _)
  · rw [key 0 1 v (by norm_num)]
    simp

/-- C10, witness: range `[-2, 2]` (the defaults of `z-min` and `z-max`), sample 1. -/
theorem C10_normalise_witness : normalise (-2) 2 1 = max 0 (min 1 ((1 - (-2)) / (2 - (-2)))) :=
  (C10_normalise (-2) 2 1 (by norm_num)).1

/-! ## The loop body -/

theorem after_flush_ok {α : Type} {stride : Nat} {ls : Locals α} (h : LocalsOk stride ls)
    {n : Nat} (hn : n ≤ ls.available_samples) : LocalsOk stride (after_flush stride ls n) := by
  obtain ⟨h1, h2, h3, h4⟩ := h
  have hm : n * stride ≤ ls.available_samples * stride := Nat.mul_le_mul_right _ hn
  have hs : (ls.available_samples - n) * stride
      = ls.available_samples * stride - n * stride := Nat.sub_mul _ _ _
  refine ⟨?_, ?_, ?_, ?_⟩
  · simp only [after_flush, List.length_drop]
    omega
  · simp only [after_flush]
    omega
  · simp only [after_flush]
    omega
  · simp only [after_flush]
    omega

theorem peek_of_ok {α : Type} {stride : Nat} {ls : Locals α} (h : LocalsOk stride ls)
    {n : Nat} (hn : ¬ ls.available_samples < n) :
    gst_adapter_peek ls.element.adapter (to_guint64 (n * stride))
      = some (ls.element.adapter.take (n * stride)) := by
  obtain ⟨h1, h2, h3, h4⟩ := h
  have hm : n * stride ≤ ls.available_samples * stride :=
    Nat.mul_le_mul_right _ (by omega)
  have hb : to_guint64 (n * stride) = n * stride := to_guint64_of_lt (by omega)
  unfold gst_adapter_peek
  rw [hb, if_pos (by omega)]

theorem chain_iter_tail {α : Type} (env : Env) (stride : Nat) (ls1 : Locals α)
    (h : LocalsOk stride ls1) (k l0 s e : Nat) :
    (if ls1.available_samples < e - s then
        Step.done ls1 [] (Outcome.returned GstFlowReturn.OK)
      else if env.alloc k ≠ GstFlowReturn.OK then
        Step.done ls1 [] (Outcome.returned (env.alloc k))
      else
        match
          (if e - s > 0 then
            match gst_adapter_peek ls1.element.adapter (to_guint64 ((e - s) * stride)) with
            | none => none
            | some view => some (some view)
          else some none : Option (Option (List α))) with
        | none => Step.done ls1 [] Outcome.adapter_fault
        | some data =>
          if env.push k ≠ GstFlowReturn.OK then
            Step.done ls1
              [{ offset := k, offset_end := to_guint64 (k + 1), desired_offset := s,
                 desired_offset_end := e, data := data, pushed := env.push k,
                 entry_last_offset_end := l0,
                 last_offset_end := ls1.element.last_offset_end,
                 available_samples := ls1.available_samples }]
              (Outcome.returned (env.push k))
          else
            Step.more
              { ls1 with
                element :=
                  { ls1.element with
                    frame_number := to_guint64 (ls1.element.frame_number + 1) } }
              { offset := k, offset_end := to_guint64 (k + 1), desired_offset := s,
                desired_offset_end := e, data := data, pushed := env.push k,
                entry_last_offset_end := l0,
                last_offset_end := ls1.element.last_offset_end,
                available_samples := ls1.available_samples })
      = (if ls1.available_samples < e - s then
          Step.done ls1 [] (Outcome.returned GstFlowReturn.OK)
        else if env.alloc k ≠ GstFlowReturn.OK then
          Step.done ls1 [] (Outcome.returned (env.alloc k))
        else if env.push k ≠ GstFlowReturn.OK then
          Step.done ls1
            [{ offset := k, offset_end := to_guint64 (k + 1), desired_offset := s,
               desired_offset_end := e,
               data := if 0 < e - s then some (ls1.element.adapter.take ((e - s) * stride))
                       else none,
               pushed := env.push k,
               entry_last_offset_end := l0,
               last_offset_end := ls1.element.last_offset_end,
               available_samples := ls1.available_samples }]
            (Outcome.returned (env.push k))
        else
          Step.more
            { ls1 with
              element :=
                { ls1.element with
                  frame_number := to_guint64 (ls1.element.frame_number + 1) } }
            { offset := k, offset_end := to_guint64 (k + 1), desired_offset := s,
              desired_offset_end := e,
              data := if 0 < e - s then some (ls1.element.adapter.take ((e - s) * stride))
                      else none,
              pushed := env.push k,
              entry_last_offset_end := l0,
              last_offset_end := ls1.element.last_offset_end,
              available_samples := ls1.available_samples }) := by
  by_cases ha : ls1.available_samples < e - s
  · rw [if_pos ha, if_pos ha]
  · rw [if_neg ha, if_neg ha, peek_of_ok h ha]
    by_cases hal : env.alloc k ≠ GstFlowReturn.OK
    · rw [if_pos hal, if_pos hal]
    · rw [if_neg hal, if_neg hal]
      by_cases hz : 0 < e - s
      · simp only [gt_iff_lt, if_pos hz]
      · simp only [gt_iff_lt, if_neg hz]

theorem chain_iter_eq_flat {α : Type} (env : Env) (hist stride : Nat) (ls : Locals α)
    (h : LocalsOk stride ls) :
    chain_iter env hist stride ls = chain_iter_flat env hist stride ls := by
  have he := desired_offset_end_lt env.fpsn env.fpsd ls.element.rate ls.element.frame_number
  have hs := desired_offset_eq hist env.fpsn env.fpsd ls.element.rate ls.element.frame_number
  have hn : guint64_sub
      (desired_offset_end env.fpsn env.fpsd ls.element.rate ls.element.frame_number)
      (desired_offset hist env.fpsn env.fpsd ls.element.rate ls.element.frame_number)
      = desired_offset_end env.fpsn env.fpsd ls.element.rate ls.element.frame_number
        - desired_offset hist env.fpsn env.fpsd ls.element.rate ls.element.frame_number :=
    guint64_sub_of_le (by omega) he
  unfold chain_iter chain_iter_flat loop_frame loop_flush bump_frame desired_samples
  simp only [hn]
  generalize desired_offset_end env.fpsn env.fpsd ls.element.rate ls.element.frame_number
    = e at *
  generalize desired_offset hist env.fpsn env.fpsd ls.element.rate ls.element.frame_number
    = s at *
  by_cases hgt : s < ls.element.last_offset_end
  · rw [if_neg (by omega), if_pos hgt, if_pos hgt]
  · rw [if_neg hgt]
    by_cases hlt : ls.element.last_offset_end < s
    · rw [if_pos hlt]
      simp only [if_pos hlt]
      have hsub : guint64_sub s ls.element.last_offset_end = s - ls.element.last_offset_end :=
        guint64_sub_of_le (le_of_lt hlt) (by omega)
      have hmin : (if to_guint (s - ls.element.last_offset_end) > ls.available_samples
            then ls.available_samples else to_guint (s - ls.element.last_offset_end))
          = min (to_guint (s - ls.element.last_offset_end)) ls.available_samples := by
        split_ifs with hc
        · exact (min_eq_right (le_of_lt hc)).symm
        · exact (min_eq_left (by omega)).symm
      rw [hsub, hmin]
      generalize hfs : min (to_guint (s - ls.element.last_offset_end)) ls.available_samples
        = fs
      have hfs_le : fs ≤ ls.available_samples := by
        rw [← hfs]
        exact min_le_right _ _
      have hok1 := after_flush_ok h hfs_le
      obtain ⟨h1, h2, h3, h4⟩ := h
      have hm : fs * stride ≤ ls.available_samples * stride := Nat.mul_le_mul_right _ hfs_le
      have hfb : to_guint (fs * stride) = fs * stride := to_guint_of_lt (by omega)
      have hflush : gst_adapter_flush ls.element.adapter (fs * stride)
          = some (ls.element.adapter.drop (fs * stride)) := by
        unfold gst_adapter_flush
        rw [if_pos (by omega)]
      rw [hfb, hflush]
      simp only
      rw [guint_sub_of_le (by omega) h3, guint_sub_of_le hfs_le h4]
      have key := chain_iter_tail env stride (after_flush stride ls fs) hok1
        ls.element.frame_number ls.element.last_offset_end s e
      simp only [after_flush] at key ⊢
      first
        | exact key
        | (rw [if_neg hgt]; exact key)
    · rw [if_neg hlt, if_neg hgt]
      simp only [if_neg hlt]
      exact chain_iter_tail env stride ls h _ _ s e

theorem flat_done_inv {α : Type} {env : Env} {hist stride : Nat} {ls ls1 : Locals α}
    {fs : List (Frame α)} {o : Outcome}
    (h : chain_iter_flat env hist stride ls = Step.done ls1 fs o) :
    o ≠ Outcome.adapter_fault
      ∧ ((ls1 = ls ∧ fs = [])
        ∨ (¬ desired_offset hist env.fpsn env.fpsd ls.element.rate ls.element.frame_number
              < ls.element.last_offset_end
            ∧ ls1 = loop_flush env hist stride ls
            ∧ (fs = []
              ∨ (fs = [loop_frame env hist stride ls]
                ∧ ¬ (loop_flush env hist stride ls).available_samples
                    < desired_offset_end env.fpsn env.fpsd ls.element.rate
                        ls.element.frame_number
                      - desired_offset hist env.fpsn env.fpsd ls.element.rate
                          ls.element.frame_number
                ∧ env.push ls.element.frame_number ≠ GstFlowReturn.OK)))) := by
  unfold chain_iter_flat at h
  simp only at h
  split_ifs at h with h1 h2 h3 h4
  · injection h with e1 e2 e3
    subst e1 e2 e3
    exact ⟨by simp, Or.inl ⟨rfl, rfl⟩⟩
  · injection h with e1 e2 e3
    subst e1 e2 e3
    exact ⟨by simp, Or.inr ⟨h1, rfl, Or.inl rfl⟩⟩
  · injection h with e1 e2 e3
    subst e1 e2 e3
    exact ⟨by simp, Or.inr ⟨h1, rfl, Or.inl rfl⟩⟩
  · injection h with e1 e2 e3
    subst e1 e2 e3
    exact ⟨by simp, Or.inr ⟨h1, rfl, Or.inr ⟨rfl, h2, h4⟩⟩⟩

theorem flat_more_inv {α : Type} {env : Env} {hist stride : Nat} {ls ls1 : Locals α}
    {f : Frame α} (h : chain_iter_flat env hist stride ls = Step.more ls1 f) :
    ¬ desired_offset hist env.fpsn env.fpsd ls.element.rate ls.element.frame_number
        < ls.element.last_offset_end
      ∧ ¬ (loop_flush env hist stride ls).available_samples
          < desired_offset_end env.fpsn env.fpsd ls.element.rate ls.element.frame_number
            - desired_offset hist env.fpsn env.fpsd ls.element.rate ls.element.frame_number
      ∧ env.alloc ls.element.frame_number = GstFlowReturn.OK
      ∧ env.push ls.element.frame_number = GstFlowReturn.OK
      ∧ ls1 = bump_frame (loop_flush env hist stride ls)
      ∧ f = loop_frame env hist stride ls := by
  unfold chain_iter_flat at h
  simp only at h
  split_ifs at h with h1 h2 h3 h4
  injection h with e1 e2
  subst e1 e2
  exact ⟨h1, h2, not_not.mp h3, not_not.mp h4, rfl, rfl⟩

theorem loop_flush_ok {α : Type} (env : Env) (hist : Nat) {stride : Nat} {ls : Locals α}
    (h : LocalsOk stride ls) : LocalsOk stride (loop_flush env hist stride ls) := by
  unfold loop_flush
  simp only
  split_ifs
  · exact after_flush_ok h (min_le_right _ _)
  · exact h

theorem bump_frame_ok {α : Type} {stride : Nat} {ls : Locals α}
    (h : LocalsOk stride ls) : LocalsOk stride (bump_frame ls) := h

theorem loop_flush_config {α : Type} (env : Env) (hist stride : Nat) (ls : Locals α) :
    SameConfig (loop_flush env hist stride ls).element ls.element
      ∧ (loop_flush env hist stride ls).element.frame_number = ls.element.frame_number := by
  unfold loop_flush
  simp only
  split_ifs
  · exact ⟨⟨rfl, rfl, rfl, rfl, rfl, rfl, rfl⟩, rfl⟩
  · exact ⟨⟨rfl, rfl, rfl, rfl, rfl, rfl, rfl⟩, rfl⟩

theorem SameConfig.trans {α : Type} {a b c : CairoVisWaterfall α}
    (h1 : SameConfig a b) (h2 : SameConfig b c) : SameConfig a c := by
  obtain ⟨a1, a2, a3, a4, a5, a6, a7⟩ := h1
  obtain ⟨b1, b2, b3, b4, b5, b6, b7⟩ := h2
  exact ⟨a1.trans b1, a2.trans b2, a3.trans b3, a4.trans b4, a5.trans b5, a6.trans b6,
    a7.trans b7⟩

/-- The flush keeps the data invariant, moves `last_offset_end` forward only, and
reaches the window start unless it was clamped to an empty adapter or truncated. -/
theorem loop_flush_data {α : Type} (env : Env) (hist : Nat) {stride : Nat}
    {received : List α} {ls : Locals α} (hlen : received.length < 2 ^ 64)
    (hl : ls.element.last_offset_end < 2 ^ 64)
    (h : DataInv stride received ls) :
    DataInv stride received (loop_flush env hist stride ls)
      ∧ ls.element.last_offset_end ≤ (loop_flush env hist stride ls).element.last_offset_end
      ∧ (loop_flush env hist stride ls).element.last_offset_end < 2 ^ 64
      ∧ (¬ desired_offset hist env.fpsn env.fpsd ls.element.rate ls.element.frame_number
            < ls.element.last_offset_end →
          desired_offset hist env.fpsn env.fpsd ls.element.rate ls.element.frame_number
            - ls.element.last_offset_end < 2 ^ 32 →
          (loop_flush env hist stride ls).element.last_offset_end
              = desired_offset hist env.fpsn env.fpsd ls.element.rate ls.element.frame_number
            ∨ (loop_flush env hist stride ls).available_samples = 0) := by
  obtain ⟨hok, hz, hle, had⟩ := h
  unfold loop_flush
  simp only
  generalize desired_offset hist env.fpsn env.fpsd ls.element.rate ls.element.frame_number
    = s
  split_ifs with hlt
  · generalize hn : min (to_guint (s - ls.element.last_offset_end)) ls.available_samples = n
    have hn1 : n ≤ ls.available_samples := by
      rw [← hn]
      exact min_le_right _ _
    have hn2 : n ≤ to_guint (s - ls.element.last_offset_end) := by
      rw [← hn]
      exact min_le_left _ _
    have hok1 := after_flush_ok hok hn1
    obtain ⟨h1, h2, h3, h4⟩ := hok
    have hm : n * stride ≤ ls.available_samples * stride := Nat.mul_le_mul_right _ hn1
    have hadd : (ls.element.last_offset_end + n) * stride
        = ls.element.last_offset_end * stride + n * stride := Nat.add_mul _ _ _
    have hlen2 : ls.element.adapter.length
        = received.length - ls.element.last_offset_end * stride := by
      rw [had, List.length_drop]
    have hnowrap : ls.element.last_offset_end + n < 2 ^ 64 := by
      rcases Nat.eq_zero_or_pos stride with h0 | hpos
      · have := hz h0
        omega
      · have : ls.element.last_offset_end + n
            ≤ (ls.element.last_offset_end + n) * stride :=
          Nat.le_mul_of_pos_right _ hpos
        omega
    have hlast : (after_flush stride ls n).element.last_offset_end
        = ls.element.last_offset_end + n := by
      simp only [after_flush]
      exact to_guint64_of_lt hnowrap
    refine ⟨⟨hok1, ?_, ?_, ?_⟩, ?_, ?_, ?_⟩
    · intro h0
      have := hz h0
      simp only [after_flush]
      omega
    · rw [hlast]
      omega
    · rw [hlast, hadd]
      simp only [after_flush]
      rw [had, List.drop_drop]
    · rw [hlast]
      omega
    · rw [hlast]
      exact hnowrap
    · intro _ htr
      rw [hlast]
      have ht : to_guint (s - ls.element.last_offset_end) = s - ls.element.last_offset_end :=
        to_guint_of_lt htr
      rw [ht] at hn hn2
      by_cases hc : s - ls.element.last_offset_end ≤ ls.available_samples
      · left
        rw [min_eq_left hc] at hn
        omega
      · right
        rw [min_eq_right (by omega)] at hn
        simp only [after_flush]
        omega
  · refine ⟨⟨hok, hz, hle, had⟩, le_refl _, hl, ?_⟩
    intro hge _
    left
    omega

/-! ## The loop -/

/-- Invariant rule for the loop: a property of the locals that every pass keeps, and a
property of frames that every pass establishes, hold for the whole loop, and the
adapter never faults. -/
theorem chain_loop_inv {α : Type} (env : Env) (hist stride : Nat)
    (I : Locals α → Prop) (F : Frame α → Prop)
    (hI : ∀ ls, I ls → LocalsOk stride ls)
    (hdone : ∀ ls ls1 fs o, I ls → chain_iter_flat env hist stride ls = Step.done ls1 fs o →
      I ls1 ∧ (∀ f ∈ fs, F f) ∧ o ≠ Outcome.adapter_fault)
    (hmore : ∀ ls ls1 f, I ls → chain_iter_flat env hist stride ls = Step.more ls1 f →
      I ls1 ∧ F f) :
    ∀ (fuel : Nat) (ls : Locals α), I ls →
      (∃ ls1, I ls1 ∧ (chain_loop env hist stride fuel ls).element = ls1.element)
        ∧ (∀ f ∈ (chain_loop env hist stride fuel ls).frames, F f)
        ∧ (chain_loop env hist stride fuel ls).outcome ≠ Outcome.adapter_fault := by
  intro fuel
  induction fuel with
  | zero =>
    intro ls h
    refine ⟨⟨ls, h, rfl⟩, ?_, ?_⟩
    · intro f hf
      simp [chain_loop] at hf
    · simp [chain_loop]
  | succ n ih =>
    intro ls h
    unfold chain_loop
    rw [chain_iter_eq_flat env hist stride ls (hI ls h)]
    cases hstep : chain_iter_flat env hist stride ls with
    | done ls1 fs o =>
      obtain ⟨h1, h2, h3⟩ := hdone ls ls1 fs o h hstep
      exact ⟨⟨ls1, h1, rfl⟩, h2, h3⟩
    | more ls1 f =>
      obtain ⟨h1, h2⟩ := hmore ls ls1 f h hstep
      obtain ⟨⟨ls2, g1, g2⟩, g3, g4⟩ := ih ls1 h1
      refine ⟨⟨ls2, g1, g2⟩, ?_, g4⟩
      intro f1 hf1
      simp only [List.mem_cons] at hf1
      rcases hf1 with rfl | hf1
      · exact h2
      · exact g3 f1 hf1

theorem loop_flush_adapter {α : Type} (env : Env) (hist stride : Nat) (ls : Locals α) :
    ∃ m, (loop_flush env hist stride ls).element.adapter = ls.element.adapter.drop m := by
  unfold loop_flush
  simp only
  split_ifs
  · exact ⟨_, rfl⟩
  · exact ⟨0, rfl⟩

/-- From locals that agree with the adapter the loop never faults, keeps the
configuration, and leaves a suffix of the adapter. -/
theorem chain_loop_safe {α : Type} (env : Env) (hist stride fuel : Nat) (ls : Locals α)
    (h : LocalsOk stride ls) :
    (chain_loop env hist stride fuel ls).outcome ≠ Outcome.adapter_fault
      ∧ SameConfig (chain_loop env hist stride fuel ls).element ls.element
      ∧ ∃ m, (chain_loop env hist stride fuel ls).element.adapter
          = ls.element.adapter.drop m := by
  have key := chain_loop_inv env hist stride
    (fun l => LocalsOk stride l ∧ SameConfig l.element ls.element
      ∧ ∃ m, l.element.adapter = ls.element.adapter.drop m)
    (fun _ => True) (fun l hl => hl.1)
    (by
      intro l l1 fs o ⟨h1, h2, m, h3⟩ hstep
      obtain ⟨g1, g2⟩ := flat_done_inv hstep
      refine ⟨?_, fun _ _ => trivial, g1⟩
      rcases g2 with ⟨rfl, _⟩ | ⟨_, rfl, _⟩
      · exact ⟨h1, h2, m, h3⟩
      · obtain ⟨m1, hm1⟩ := loop_flush_adapter env hist stride l
        refine ⟨loop_flush_ok env hist h1, (loop_flush_config env hist stride l).1.trans h2,
          m + m1, ?_⟩
        rw [hm1, h3, List.drop_drop])
    (by
      intro l l1 f ⟨h1, h2, m, h3⟩ hstep
      obtain ⟨_, _, _, _, rfl, _⟩ := flat_more_inv hstep
      obtain ⟨m1, hm1⟩ := loop_flush_adapter env hist stride l
      refine ⟨⟨bump_frame_ok (loop_flush_ok env hist h1), ?_, m + m1, ?_⟩, trivial⟩
      · exact (loop_flush_config env hist stride l).1.trans h2
      · show (loop_flush env hist stride l).element.adapter = _
        rw [hm1, h3, List.drop_drop])
    fuel ls ⟨h, ⟨rfl, rfl, rfl, rfl, rfl, rfl, rfl⟩, 0, rfl⟩
  obtain ⟨⟨l1, ⟨_, c1, m, hm⟩, e1⟩, _, k3⟩ := key
  refine ⟨k3, ?_, m, ?_⟩
  · rw [e1]
    exact c1
  · rw [e1]
    exact hm

theorem chain_locals_ok {α : Type} (element : CairoVisWaterfall α) :
    LocalsOk (stride_bytes element.nchannels) (chain_locals element)
      ∧ (stride_bytes element.nchannels = 0 → (chain_locals element).available_samples = 0) := by
  unfold chain_locals LocalsOk gst_adapter_available
  simp only
  have h1 := to_guint_le element.adapter.length
  have h2 : to_guint element.adapter.length < 2 ^ 32 := by
    unfold to_guint
    omega
  have h3 := Nat.div_mul_le_self (to_guint element.adapter.length)
    (stride_bytes element.nchannels)
  have h4 := Nat.div_le_self (to_guint element.adapter.length)
    (stride_bytes element.nchannels)
  refine ⟨⟨h1, h3, h2, by omega⟩, ?_⟩
  intro h0
  rw [h0, Nat.div_zero]

theorem chain_accept_config {α : Type} (element : CairoVisWaterfall α) (inbuf : GstBuffer α) :
    (chain_accept element inbuf).xscale = element.xscale
      ∧ (chain_accept element inbuf).yscale = element.yscale
      ∧ (chain_accept element inbuf).nchannels = element.nchannels
      ∧ (chain_accept element inbuf).rate = element.rate
      ∧ (chain_accept element inbuf).history = element.history := by
  unfold chain_accept
  simp only
  split_ifs <;> exact ⟨rfl, rfl, rfl, rfl, rfl⟩

theorem chain_accept_adapter {α : Type} (element : CairoVisWaterfall α) (inbuf : GstBuffer α) :
    (chain_accept element inbuf).adapter = element.adapter ++ inbuf.data := by
  unfold chain_accept
  simp only
  split_ifs <;> rfl

theorem buffer_is_valid_iff {α : Type} (inbuf : GstBuffer α) :
    buffer_is_valid inbuf = true ↔
      inbuf.timestamp ≠ GST_CLOCK_TIME_NONE ∧ inbuf.duration ≠ GST_CLOCK_TIME_NONE
        ∧ inbuf.offset ≠ GST_BUFFER_OFFSET_NONE
        ∧ inbuf.offset_end ≠ GST_BUFFER_OFFSET_NONE := by
  unfold buffer_is_valid
  simp only [Bool.and_eq_true, decide_eq_true_eq]
  tauto

theorem loop_frame_ok {α : Type} (env : Env) (hist : Nat) {stride : Nat}
    {received : List α} {ls : Locals α} (hlen : received.length < 2 ^ 64)
    (hl : ls.element.last_offset_end < 2 ^ 64) (h : DataInv stride received ls)
    (hge : ¬ desired_offset hist env.fpsn env.fpsd ls.element.rate ls.element.frame_number
        < ls.element.last_offset_end)
    (hav : ¬ (loop_flush env hist stride ls).available_samples
        < desired_offset_end env.fpsn env.fpsd ls.element.rate ls.element.frame_number
          - desired_offset hist env.fpsn env.fpsd ls.element.rate ls.element.frame_number) :
    FrameOk stride received (loop_frame env hist stride ls) := by
  obtain ⟨hinv, _, _, hreach⟩ := loop_flush_data env hist hlen hl h
  obtain ⟨⟨h1, h2, h3, h4⟩, hz, h5, h6⟩ := hinv
  intro hne htr
  simp only [loop_frame] at hne htr ⊢
  generalize desired_offset hist env.fpsn env.fpsd ls.element.rate ls.element.frame_number
    = s at *
  generalize desired_offset_end env.fpsn env.fpsd ls.element.rate ls.element.frame_number
    = e at *
  have hlast : (loop_flush env hist stride ls).element.last_offset_end = s := by
    rcases hreach hge htr with hr | hr
    · exact hr
    · omega
  have hm : (e - s) * stride ≤ (loop_flush env hist stride ls).available_samples * stride :=
    Nat.mul_le_mul_right _ (by omega)
  have hsplit : e * stride = s * stride + (e - s) * stride := by
    rw [← Nat.add_mul]
    congr 1
    omega
  have hlen2 : (loop_flush env hist stride ls).element.adapter.length
      = received.length - s * stride := by
    rw [h6, hlast, List.length_drop]
  rw [hlast] at h5 h6
  refine ⟨hlast, by omega, by omega, ?_, ?_⟩
  · rw [if_pos (by omega), h6]
  · rcases Nat.eq_zero_or_pos stride with h0 | hpos
    · have := hz h0
      omega
    · exact hpos

/-- The loop keeps the data invariant, moves `last_offset_end` forward only, and every
frame it draws satisfies `FrameOk`. -/
theorem chain_loop_data {α : Type} (env : Env) (hist stride fuel : Nat)
    (received : List α) (ls : Locals α) (hlen : received.length < 2 ^ 64)
    (hl : ls.element.last_offset_end < 2 ^ 64) (h : DataInv stride received ls) :
    (chain_loop env hist stride fuel ls).element.last_offset_end * stride ≤ received.length
      ∧ (chain_loop env hist stride fuel ls).element.adapter
          = received.drop ((chain_loop env hist stride fuel ls).element.last_offset_end * stride)
      ∧ ls.element.last_offset_end ≤ (chain_loop env hist stride fuel ls).element.last_offset_end
      ∧ (chain_loop env hist stride fuel ls).element.last_offset_end < 2 ^ 64
      ∧ ∀ f ∈ (chain_loop env hist stride fuel ls).frames, FrameOk stride received f := by
  have key := chain_loop_inv env hist stride
    (fun l => DataInv stride received l
      ∧ ls.element.last_offset_end ≤ l.element.last_offset_end
      ∧ l.element.last_offset_end < 2 ^ 64)
    (FrameOk stride received) (fun l hl => hl.1.1)
    (by
      intro l l1 fs o ⟨h1, h2, h3⟩ hstep
      obtain ⟨g1, g2⟩ := flat_done_inv hstep
      obtain ⟨d1, d2, d3, _⟩ := loop_flush_data env hist hlen h3 h1
      rcases g2 with ⟨rfl, rfl⟩ | ⟨hge, rfl, hfs⟩
      · exact ⟨⟨h1, h2, h3⟩, by simp, g1⟩
      · refine ⟨⟨d1, le_trans h2 d2, d3⟩, ?_, g1⟩
        rcases hfs with rfl | ⟨rfl, hav, _⟩
        · simp
        · intro f hf
          rw [List.mem_singleton] at hf
          rw [hf]
          exact loop_frame_ok env hist hlen h3 h1 hge hav)
    (by
      intro l l1 f ⟨h1, h2, h3⟩ hstep
      obtain ⟨hge, hav, _, _, rfl, rfl⟩ := flat_more_inv hstep
      obtain ⟨d1, d2, d3, _⟩ := loop_flush_data env hist hlen h3 h1
      exact ⟨⟨d1, le_trans h2 d2, d3⟩, loop_frame_ok env hist hlen h3 h1 hge hav⟩)
    fuel ls ⟨h, le_refl _, hl⟩
  obtain ⟨⟨l1, ⟨⟨_, _, k1, k2⟩, k3, k4⟩, e1⟩, k5, _⟩ := key
  rw [e1]
  exact ⟨k1, k2, k3, k4, k5⟩

theorem accepted_data_congr {α : Type} {a b : CairoVisWaterfall α}
    (hx : a.xscale = b.xscale) (hy : a.yscale = b.yscale) (inbuf : GstBuffer α) :
    accepted_data a inbuf = accepted_data b inbuf := by
  unfold accepted_data
  rw [hx, hy]

theorem appended_congr {α : Type} {a b : CairoVisWaterfall α}
    (hx : a.xscale = b.xscale) (hy : a.yscale = b.yscale) (calls : List (Call α)) :
    appended a calls = appended b calls := by
  unfold appended
  congr 2
  funext c
  exact accepted_data_congr hx hy c.inbuf

theorem appended_cons {α : Type} (e : CairoVisWaterfall α) (c : Call α)
    (calls : List (Call α)) :
    appended e (c :: calls) = accepted_data e c.inbuf ++ appended e calls := by
  simp [appended]

theorem appended_snoc {α : Type} (e : CairoVisWaterfall α) (c : Call α)
    (calls : List (Call α)) :
    appended e (calls ++ [c]) = appended e calls ++ accepted_data e c.inbuf := by
  simp [appended]

/-- One call keeps the stream invariant, every frame it draws satisfies `FrameOk`
for the stream including this call, and `last_offset_end` does not go back once the
origin is set. -/
theorem sink_chain_data {α : Type} (fuel : Nat) (env : Env) (e : CairoVisWaterfall α)
    (inbuf : GstBuffer α) (received : List α) (h : RunInv received e)
    (hlen : (received ++ accepted_data e inbuf).length < 2 ^ 64) :
    RunInv (received ++ accepted_data e inbuf) (sink_chain fuel env e inbuf).element
      ∧ (∀ f ∈ (sink_chain fuel env e inbuf).frames,
          FrameOk (stride_bytes e.nchannels) (received ++ accepted_data e inbuf) f)
      ∧ (e.t0 ≠ GST_CLOCK_TIME_NONE →
          e.last_offset_end ≤ (sink_chain fuel env e inbuf).element.last_offset_end)
      ∧ (sink_chain fuel env e inbuf).element.xscale = e.xscale
      ∧ (sink_chain fuel env e inbuf).element.yscale = e.yscale
      ∧ (sink_chain fuel env e inbuf).element.nchannels = e.nchannels := by
  unfold sink_chain
  by_cases hlog : e.xscale ≠ 0 ∨ e.yscale ≠ 0
  · rw [if_pos hlog]
    have hacc : accepted_data e inbuf = [] := by
      unfold accepted_data
      rw [if_pos hlog]
    rw [hacc, List.append_nil]
    exact ⟨h, by simp, fun _ => le_refl _, rfl, rfl, rfl⟩
  · rw [if_neg hlog]
    by_cases hv : buffer_is_valid inbuf = false
    · rw [if_pos hv]
      have hacc : accepted_data e inbuf = [] := by
        unfold accepted_data
        rw [if_neg hlog, if_pos hv]
      rw [hacc, List.append_nil]
      exact ⟨h, by simp, fun _ => le_refl _, rfl, rfl, rfl⟩
    · rw [if_neg hv]
      have hacc : accepted_data e inbuf = inbuf.data := by
        unfold accepted_data
        rw [if_neg hlog, if_neg hv]
      rw [hacc] at hlen ⊢
      have hvalid : inbuf.timestamp ≠ GST_CLOCK_TIME_NONE := by
        have : buffer_is_valid inbuf = true := by simpa using hv
        exact ((buffer_is_valid_iff inbuf).mp this).1
      obtain ⟨c1, c2, c3, c4, c5⟩ := chain_accept_config e inbuf
      -- the element after the origin block and the push
      have hacc2 : (chain_accept e inbuf).t0 ≠ GST_CLOCK_TIME_NONE
          ∧ (chain_accept e inbuf).last_offset_end < 2 ^ 64
          ∧ (chain_accept e inbuf).last_offset_end * stride_bytes e.nchannels
              ≤ (received ++ inbuf.data).length
          ∧ (chain_accept e inbuf).adapter
              = (received ++ inbuf.data).drop
                  ((chain_accept e inbuf).last_offset_end * stride_bytes e.nchannels)
          ∧ (e.t0 ≠ GST_CLOCK_TIME_NONE →
              e.last_offset_end ≤ (chain_accept e inbuf).last_offset_end) := by
        rcases h with ⟨h1, h2, h3⟩ | ⟨h1, h2, h3, h4⟩
        · unfold chain_accept
          simp only [if_pos h1, h2, h3]
          refine ⟨hvalid, by norm_num, by simp, by simp, fun hc => absurd h1 hc⟩
        · unfold chain_accept
          simp only [if_neg h1]
          refine ⟨h1, h2, ?_, ?_, fun _ => le_refl _⟩
          · rw [List.length_append]
            omega
          · rw [h4, List.drop_append_of_le_length h3]
      obtain ⟨a1, a2, a3, a4, a5⟩ := hacc2
      simp only
      split_ifs with hneg
      · refine ⟨Or.inr ⟨a1, a2, ?_, ?_⟩, by simp, a5, c1, c2, c3⟩
        · rw [c3]
          exact a3
        · rw [c3]
          exact a4
      · obtain ⟨lok, lz⟩ := chain_locals_ok (chain_accept e inbuf)
        obtain ⟨_, sc, _⟩ := chain_loop_safe env
          (history_samples (chain_accept e inbuf).history (chain_accept e inbuf).rate)
          (stride_bytes (chain_accept e inbuf).nchannels) fuel
          (chain_locals (chain_accept e inbuf)) lok
        obtain ⟨s1, s2, s3, _, s5, _, _⟩ := sc
        have hdata : DataInv (stride_bytes (chain_accept e inbuf).nchannels)
            (received ++ inbuf.data) (chain_locals (chain_accept e inbuf)) := by
          refine ⟨lok, lz, ?_, ?_⟩
          · rw [c3]
            exact a3
          · rw [c3]
            exact a4
        obtain ⟨d1, d2, d3, d4, d5⟩ := chain_loop_data env
          (history_samples (chain_accept e inbuf).history (chain_accept e inbuf).rate)
          (stride_bytes (chain_accept e inbuf).nchannels) fuel (received ++ inbuf.data)
          (chain_locals (chain_accept e inbuf)) hlen a2 hdata
        have s1' : (chain_loop env
            (history_samples (chain_accept e inbuf).history (chain_accept e inbuf).rate)
            (stride_bytes (chain_accept e inbuf).nchannels) fuel
            (chain_locals (chain_accept e inbuf))).element.xscale = e.xscale := s1.trans c1
        have s2' : (chain_loop env
            (history_samples (chain_accept e inbuf).history (chain_accept e inbuf).rate)
            (stride_bytes (chain_accept e inbuf).nchannels) fuel
            (chain_locals (chain_accept e inbuf))).element.yscale = e.yscale := s2.trans c2
        have s3' : (chain_loop env
            (history_samples (chain_accept e inbuf).history (chain_accept e inbuf).rate)
            (stride_bytes (chain_accept e inbuf).nchannels) fuel
            (chain_locals (chain_accept e inbuf))).element.nchannels = e.nchannels :=
          s3.trans c3
        have s5' : (chain_loop env
            (history_samples (chain_accept e inbuf).history (chain_accept e inbuf).rate)
            (stride_bytes (chain_accept e inbuf).nchannels) fuel
            (chain_locals (chain_accept e inbuf))).element.t0
              = (chain_accept e inbuf).t0 := s5
        have hS : stride_bytes (chain_accept e inbuf).nchannels = stride_bytes e.nchannels := by
          rw [c3]
        refine ⟨Or.inr ⟨?_, d4, ?_, ?_⟩, ?_, ?_, s1', s2', s3'⟩
        · rw [s5']
          exact a1
        · rw [s3', ← hS]
          exact d1
        · rw [s3', ← hS]
          exact d2
        · rw [← hS]
          exact d5
        · intro ht
          exact le_trans (a5 ht) d3

theorem chain_run_snoc {α : Type} (calls : List (Call α)) (c : Call α) :
    ∀ e : CairoVisWaterfall α,
      chain_run e (calls ++ [c])
        = ((sink_chain c.fuel c.env (chain_run e calls).1 c.inbuf).element,
            (chain_run e calls).2
              ++ (sink_chain c.fuel c.env (chain_run e calls).1 c.inbuf).frames) := by
  induction calls with
  | nil =>
    intro e
    simp [chain_run]
  | cons d rest ih =>
    intro e
    have h := ih (sink_chain d.fuel d.env e d.inbuf).element
    show ((chain_run (sink_chain d.fuel d.env e d.inbuf).element (rest ++ [c])).1,
      (sink_chain d.fuel d.env e d.inbuf).frames
        ++ (chain_run (sink_chain d.fuel d.env e d.inbuf).element (rest ++ [c])).2) = _
    rw [h]
    simp only [chain_run, List.append_assoc]

/-- A stream of calls keeps the stream invariant and the configuration. -/
theorem chain_run_inv {α : Type} (calls : List (Call α)) :
    ∀ (e : CairoVisWaterfall α) (received : List α), RunInv received e →
      (received ++ appended e calls).length < 2 ^ 64 →
      RunInv (received ++ appended e calls) (chain_run e calls).1
        ∧ (chain_run e calls).1.xscale = e.xscale
        ∧ (chain_run e calls).1.yscale = e.yscale
        ∧ (chain_run e calls).1.nchannels = e.nchannels := by
  induction calls with
  | nil =>
    intro e received h _
    simpa [appended, chain_run] using h
  | cons c rest ih =>
    intro e received h hlen
    rw [appended_cons, ← List.append_assoc] at hlen ⊢
    have hlen1 : (received ++ accepted_data e c.inbuf).length < 2 ^ 64 := by
      rw [List.length_append] at hlen
      omega
    obtain ⟨d1, _, _, d4, d5, d6⟩ := sink_chain_data c.fuel c.env e c.inbuf received h hlen1
    have hcongr := appended_congr d4 d5 rest
    rw [← hcongr] at hlen ⊢
    obtain ⟨i1, i2, i3, i4⟩ := ih _ _ d1 hlen
    simp only [chain_run]
    exact ⟨i1, i2.trans d4, i3.trans d5, i4.trans d6⟩

theorem instance_init_inv {α : Type} (e0 : CairoVisWaterfall α) :
    RunInv ([] : List α) (instance_init e0) :=
  Or.inl ⟨rfl, rfl, rfl⟩

theorem sink_chain_no_fault {α : Type} (fuel : Nat) (env : Env)
    (element : CairoVisWaterfall α) (inbuf : GstBuffer α) :
    (sink_chain fuel env element inbuf).outcome ≠ Outcome.adapter_fault := by
  unfold sink_chain
  simp only
  split_ifs
  · simp
  · simp
  · simp
  · exact (chain_loop_safe env _ _ fuel _ (chain_locals_ok (chain_accept element inbuf)).1).1

/-- What a stream of calls on a new element gives for its last call `c`: the stream
invariant afterwards, `FrameOk` for the frames of `c`, and `last_offset_end` not going
back. -/
theorem run_last_call {α : Type} (e0 : CairoVisWaterfall α) (calls : List (Call α))
    (c : Call α)
    (hlen : (appended (instance_init e0) (calls ++ [c])).length < 2 ^ 64) :
    RunInv (appended (instance_init e0) (calls ++ [c]))
        (sink_chain c.fuel c.env (chain_run (instance_init e0) calls).1 c.inbuf).element
      ∧ (∀ f ∈ (sink_chain c.fuel c.env (chain_run (instance_init e0) calls).1 c.inbuf).frames,
          FrameOk (stride_bytes e0.nchannels) (appended (instance_init e0) (calls ++ [c])) f)
      ∧ ((chain_run (instance_init e0) calls).1.t0 ≠ GST_CLOCK_TIME_NONE →
          (chain_run (instance_init e0) calls).1.last_offset_end
            ≤ (sink_chain c.fuel c.env (chain_run (instance_init e0) calls).1
                c.inbuf).element.last_offset_end)
      ∧ (sink_chain c.fuel c.env (chain_run (instance_init e0) calls).1 c.inbuf).element.nchannels
          = e0.nchannels := by
  rw [appended_snoc] at hlen ⊢
  have hlen0 : (([] : List α) ++ appended (instance_init e0) calls).length < 2 ^ 64 := by
    rw [List.length_append] at hlen
    simpa using Nat.lt_of_le_of_lt (Nat.le_add_right _ _) hlen
  obtain ⟨r1, r2, r3, r4⟩ := chain_run_inv calls (instance_init e0) [] (instance_init_inv e0) hlen0
  rw [List.nil_append] at r1
  have hacc := accepted_data_congr r2 r3 c.inbuf
  rw [← hacc] at hlen ⊢
  obtain ⟨d1, d2, d3, _, _, d6⟩ := sink_chain_data c.fuel c.env _ c.inbuf _ r1 hlen
  have hn : (chain_run (instance_init e0) calls).1.nchannels = e0.nchannels := r4
  rw [hn] at d2
  exact ⟨d1, d2, d3, d6.trans hn⟩

/-! ### Frame numbering -/

theorem pushed_ok_append {α : Type} (a b : List (Frame α)) :
    pushed_ok (a ++ b) = pushed_ok a ++ pushed_ok b := by
  simp [pushed_ok]

/-- The frames that the loop pushes successfully are numbered consecutively from the
frame number on entry, modulo `2 ^ 64`, and `frame_number` ends one past the last. -/
theorem chain_loop_numbering {α : Type} (env : Env) (hist stride : Nat) :
    ∀ (fuel : Nat) (ls : Locals α) (c : Nat), LocalsOk stride ls →
      ls.element.frame_number = c % 2 ^ 64 →
      (pushed_ok (chain_loop env hist stride fuel ls).frames).map (fun f => f.offset)
          = (List.range' c (pushed_ok (chain_loop env hist stride fuel ls).frames).length).map
              (fun j => j % 2 ^ 64)
        ∧ (∀ f ∈ (chain_loop env hist stride fuel ls).frames,
            f.offset_end = (f.offset + 1) % 2 ^ 64)
        ∧ (chain_loop env hist stride fuel ls).element.frame_number
            = (c + (pushed_ok (chain_loop env hist stride fuel ls).frames).length) % 2 ^ 64 := by
  intro fuel
  induction fuel with
  | zero =>
    intro ls c _ hc
    simp [chain_loop, pushed_ok, hc]
  | succ n ih =>
    intro ls c hok hc
    unfold chain_loop
    rw [chain_iter_eq_flat env hist stride ls hok]
    cases hstep : chain_iter_flat env hist stride ls with
    | done ls1 fs o =>
      obtain ⟨_, g2⟩ := flat_done_inv hstep
      rcases g2 with ⟨rfl, rfl⟩ | ⟨_, rfl, hfs⟩
      · simp [pushed_ok, hc]
      · have hk := (loop_flush_config env hist stride ls).2
        rcases hfs with rfl | ⟨rfl, _, hpush⟩
        · simp [pushed_ok, hc, hk]
        · have hp : pushed_ok [loop_frame env hist stride ls] = [] := by
            simp [pushed_ok, loop_frame, hpush]
          simp only [hp, List.length_nil, List.map_nil, List.range'_zero, Nat.add_zero,
            List.mem_singleton, forall_eq, true_and]
          exact ⟨by simp [loop_frame, to_guint64], hk.trans hc⟩
    | more ls1 f =>
      obtain ⟨_, _, _, hpush, rfl, rfl⟩ := flat_more_inv hstep
      have hk := (loop_flush_config env hist stride ls).2
      have hc1 : (bump_frame (loop_flush env hist stride ls)).element.frame_number
          = (c + 1) % 2 ^ 64 := by
        simp only [bump_frame, to_guint64, hk, hc]
        omega
      obtain ⟨i1, i2, i3⟩ := ih (bump_frame (loop_flush env hist stride ls)) (c + 1)
        (bump_frame_ok (loop_flush_ok env hist hok)) hc1
      have hp : ∀ rest : List (Frame α),
          pushed_ok (loop_frame env hist stride ls :: rest)
            = loop_frame env hist stride ls :: pushed_ok rest := by
        intro rest
        simp [pushed_ok, loop_frame, hpush]
      simp only [hp, List.map_cons, List.length_cons, List.range'_succ]
      refine ⟨?_, ?_, ?_⟩
      · rw [i1]
        simp [loop_frame, hc]
      · intro f hf
        rw [List.mem_cons] at hf
        rcases hf with rfl | hf
        · simp [loop_frame, to_guint64]
        · exact i2 f hf
      · rw [i3]
        congr 1
        omega

/-- Numbering state of a stream that has pushed `c` frames: the origin is unset and
nothing was pushed, or `frame_number` is `c` modulo `2 ^ 64`. -/
theorem sink_chain_numbering {α : Type} (fuel : Nat) (env : Env)
    (e : CairoVisWaterfall α) (inbuf : GstBuffer α) (c : Nat)
    (h : (e.t0 = GST_CLOCK_TIME_NONE ∧ c = 0)
      ∨ (e.t0 ≠ GST_CLOCK_TIME_NONE ∧ e.frame_number = c % 2 ^ 64)) :
    (pushed_ok (sink_chain fuel env e inbuf).frames).map (fun f => f.offset)
        = (List.range' c (pushed_ok (sink_chain fuel env e inbuf).frames).length).map
            (fun j => j % 2 ^ 64)
      ∧ (∀ f ∈ (sink_chain fuel env e inbuf).frames, f.offset_end = (f.offset + 1) % 2 ^ 64)
      ∧ (((sink_chain fuel env e inbuf).element.t0 = GST_CLOCK_TIME_NONE
            ∧ c + (pushed_ok (sink_chain fuel env e inbuf).frames).length = 0)
        ∨ ((sink_chain fuel env e inbuf).element.t0 ≠ GST_CLOCK_TIME_NONE
            ∧ (sink_chain fuel env e inbuf).element.frame_number
                = (c + (pushed_ok (sink_chain fuel env e inbuf).frames).length) % 2 ^ 64)) := by
  unfold sink_chain
  by_cases hlog : e.xscale ≠ 0 ∨ e.yscale ≠ 0
  · rw [if_pos hlog]
    simpa [pushed_ok] using h
  · rw [if_neg hlog]
    by_cases hv : buffer_is_valid inbuf = false
    · rw [if_pos hv]
      simpa [pushed_ok] using h
    · rw [if_neg hv]
      have hvalid : inbuf.timestamp ≠ GST_CLOCK_TIME_NONE := by
        have : buffer_is_valid inbuf = true := by simpa using hv
        exact ((buffer_is_valid_iff inbuf).mp this).1
      have hacc : (chain_accept e inbuf).t0 ≠ GST_CLOCK_TIME_NONE
          ∧ (chain_accept e inbuf).frame_number = c % 2 ^ 64 := by
        rcases h with ⟨h1, h2⟩ | ⟨h1, h2⟩
        · unfold chain_accept
          simp only [if_pos h1]
          exact ⟨hvalid, by rw [h2]; rfl⟩
        · unfold chain_accept
          simp only [if_neg h1]
          exact ⟨h1, h2⟩
      obtain ⟨a1, a2⟩ := hacc
      simp only
      split_ifs with hneg
      · simp only [pushed_ok, List.filter_nil, List.map_nil, List.length_nil, List.range'_zero,
          List.not_mem_nil, false_implies, implies_true, Nat.add_zero, true_and]
        exact Or.inr ⟨a1, a2⟩
      · obtain ⟨lok, _⟩ := chain_locals_ok (chain_accept e inbuf)
        obtain ⟨n1, n2, n3⟩ := chain_loop_numbering env
          (history_samples (chain_accept e inbuf).history (chain_accept e inbuf).rate)
          (stride_bytes (chain_accept e inbuf).nchannels) fuel
          (chain_locals (chain_accept e inbuf)) c lok a2
        obtain ⟨_, sc, _⟩ := chain_loop_safe env
          (history_samples (chain_accept e inbuf).history (chain_accept e inbuf).rate)
          (stride_bytes (chain_accept e inbuf).nchannels) fuel
          (chain_locals (chain_accept e inbuf)) lok
        obtain ⟨_, _, _, _, s5, _, _⟩ := sc
        refine ⟨n1, n2, Or.inr ⟨?_, n3⟩⟩
        rw [s5]
        exact a1

theorem chain_run_numbering {α : Type} (calls : List (Call α)) :
    ∀ (e : CairoVisWaterfall α) (c : Nat),
      ((e.t0 = GST_CLOCK_TIME_NONE ∧ c = 0)
        ∨ (e.t0 ≠ GST_CLOCK_TIME_NONE ∧ e.frame_number = c % 2 ^ 64)) →
      (pushed_ok (chain_run e calls).2).map (fun f => f.offset)
          = (List.range' c (pushed_ok (chain_run e calls).2).length).map (fun j => j % 2 ^ 64)
        ∧ (∀ f ∈ (chain_run e calls).2, f.offset_end = (f.offset + 1) % 2 ^ 64)
        ∧ ((chain_run e calls).1.t0 ≠ GST_CLOCK_TIME_NONE →
            (chain_run e calls).1.frame_number
              = (c + (pushed_ok (chain_run e calls).2).length) % 2 ^ 64) := by
  induction calls with
  | nil =>
    intro e c h
    simp only [chain_run, pushed_ok, List.filter_nil, List.map_nil, List.length_nil,
      List.range'_zero, List.not_mem_nil, false_implies, implies_true, Nat.add_zero, true_and]
    intro ht
    rcases h with ⟨h1, _⟩ | ⟨_, h2⟩
    · exact absurd h1 ht
    · exact h2
  | cons d rest ih =>
    intro e c h
    obtain ⟨s1, s2, s3⟩ := sink_chain_numbering d.fuel d.env e d.inbuf c h
    obtain ⟨i1, i2, i3⟩ := ih (sink_chain d.fuel d.env e d.inbuf).element
      (c + (pushed_ok (sink_chain d.fuel d.env e d.inbuf).frames).length) s3
    simp only [chain_run, pushed_ok_append, List.map_append, List.length_append]
    refine ⟨?_, ?_, ?_⟩
    · rw [s1, i1, ← List.map_append, List.range'_append_1, Nat.add_comm
        (pushed_ok (chain_run (sink_chain d.fuel d.env e d.inbuf).element rest).2).length]
    · intro f hf
      rw [List.mem_append] at hf
      rcases hf with hf | hf
      · exact s2 f hf
      · exact i2 f hf
    · intro ht
      rw [i3 ht, Nat.add_assoc]

/-! ### The window end as a function of the frame number -/

theorem desired_offset_end_mono (fpsn fpsd rate : Int) {a b : Nat} (h : a ≤ b) :
    desired_offset_end fpsn fpsd rate a ≤ desired_offset_end fpsn fpsd rate b :=
  scale_mono h _ _

theorem desired_offset_mono (hist : Nat) (fpsn fpsd rate : Int) {a b : Nat} (h : a ≤ b) :
    desired_offset hist fpsn fpsd rate a ≤ desired_offset hist fpsn fpsd rate b := by
  rw [desired_offset_eq, desired_offset_eq]
  have := desired_offset_end_mono fpsn fpsd rate h
  omega

theorem add_div_le_succ (a b d : Nat) (hd : 0 < d) : (a + b) / d ≤ a / d + b / d + 1 := by
  have h1 := Nat.lt_mul_div_succ a hd
  have h2 := Nat.lt_mul_div_succ b hd
  rw [Nat.div_le_iff_le_mul_add_pred hd]
  have e0 : d * (a / d + b / d + 1) = d * (a / d) + d * (b / d) + d := by ring
  have e1 : d * (a / d + 1) = d * (a / d) + d := by ring
  have e2 : d * (b / d + 1) = d * (b / d) + d := by ring
  omega

/-- For a positive frame rate and a product `fpsd * rate` that fits a `gint`, the window
end starts at 0, grows by at most `2 ^ 31` per frame, and passes every bound below
`2 ^ 63` by frame `fpsn * (bound + 1)`. -/
theorem desired_offset_end_growth (fpsn fpsd rate : Int)
    (hrate : 0 < rate) (hn : 0 < fpsn) (hd : 0 < fpsd) (hfit : fpsd * rate < 2 ^ 31) :
    desired_offset_end fpsn fpsd rate 0 = 0
      ∧ (∀ k, desired_offset_end fpsn fpsd rate (k + 1)
          ≤ desired_offset_end fpsn fpsd rate k + 2 ^ 31)
      ∧ (∀ N, N < 2 ^ 63 → N < desired_offset_end fpsn fpsd rate (fpsn.toNat * (N + 1))) := by
  have hpos : 0 < fpsd * rate := mul_pos hd hrate
  have hfits := gint_mul_of_fits (le_of_lt hpos) hfit
  have hd1 : 0 < fpsn.toNat := by omega
  have hn1 : 0 < (fpsd * rate).toNat := by omega
  have hn2 : (fpsd * rate).toNat < 2 ^ 31 := by omega
  generalize hdd : fpsn.toNat = d at *
  generalize hnn : (fpsd * rate).toNat = n at *
  have hform : ∀ k, desired_offset_end fpsn fpsd rate k
      = min G_MAXUINT64 ((k * n + d / 2) / d) := by
    intro k
    unfold desired_offset_end
    rw [hfits, scale_eq k hn (le_of_lt hpos), hdd, hnn]
  refine ⟨?_, ?_, ?_⟩
  · rw [hform]
    have : (0 * n + d / 2) / d = 0 := by
      rw [Nat.zero_mul, Nat.zero_add]
      exact Nat.div_eq_of_lt (Nat.div_lt_self hd1 (by norm_num))
    rw [this]
    exact Nat.min_eq_right (Nat.zero_le _)
  · intro k
    rw [hform, hform]
    have e : (k + 1) * n + d / 2 = (k * n + d / 2) + n := by ring
    have h1 := add_div_le_succ (k * n + d / 2) n d hd1
    have h2 : n / d ≤ n := Nat.div_le_self _ _
    rw [e]
    omega
  · intro N hN
    rw [hform]
    have h1 : N + 1 ≤ (d * (N + 1) * n + d / 2) / d := by
      rw [Nat.le_div_iff_mul_le hd1]
      have : (N + 1) * d ≤ d * (N + 1) * n := by
        calc (N + 1) * d = d * (N + 1) * 1 := by ring
          _ ≤ d * (N + 1) * n := Nat.mul_le_mul_left _ hn1
      omega
    unfold G_MAXUINT64
    omega

theorem flush_vals {α : Type} (env : Env) (hist stride : Nat) (ls : Locals α)
    (htr : desired_offset hist env.fpsn env.fpsd ls.element.rate ls.element.frame_number
        - ls.element.last_offset_end < 2 ^ 32)
    (hnw : ls.element.last_offset_end + ls.available_samples < 2 ^ 64) :
    (loop_flush env hist stride ls).available_samples
        = ls.available_samples
          - min (desired_offset hist env.fpsn env.fpsd ls.element.rate ls.element.frame_number
              - ls.element.last_offset_end) ls.available_samples
      ∧ (loop_flush env hist stride ls).element.last_offset_end
        = ls.element.last_offset_end
          + min (desired_offset hist env.fpsn env.fpsd ls.element.rate ls.element.frame_number
              - ls.element.last_offset_end) ls.available_samples := by
  unfold loop_flush
  simp only
  generalize desired_offset hist env.fpsn env.fpsd ls.element.rate ls.element.frame_number
    = s at *
  split_ifs with h
  · simp only [after_flush]
    rw [to_guint_of_lt htr]
    exact ⟨rfl, to_guint64_of_lt (by omega)⟩
  · have : s - ls.element.last_offset_end = 0 := by omega
    rw [this]
    simp

/-- The loop on a stream of `N` samples, `j` frames before the first frame whose window
end is beyond `N`: it draws exactly these `j` frames and returns `GST_FLOW_OK`. -/
theorem chain_loop_exact {α : Type} (env : Env) (hist stride N : Nat) (rate : Int)
    (halloc : ∀ k, env.alloc k = GstFlowReturn.OK)
    (hpush : ∀ k, env.push k = GstFlowReturn.OK)
    (hH : 0 < hist) (hN : N < 2 ^ 31)
    (hjump : ∀ k, desired_offset_end env.fpsn env.fpsd rate (k + 1)
      ≤ desired_offset_end env.fpsn env.fpsd rate k + 2 ^ 31) :
    ∀ (j fuel : Nat) (ls : Locals α), j < fuel → LocalsOk stride ls →
      ls.element.rate = rate →
      ls.element.last_offset_end + ls.available_samples = N →
      ls.element.last_offset_end
        ≤ desired_offset hist env.fpsn env.fpsd rate ls.element.frame_number →
      ls.element.frame_number + j + 1 < 2 ^ 64 →
      desired_offset_end env.fpsn env.fpsd rate ls.element.frame_number ≤ N + 2 ^ 31 →
      (∀ i, i < j → desired_offset_end env.fpsn env.fpsd rate (ls.element.frame_number + i) ≤ N) →
      N < desired_offset_end env.fpsn env.fpsd rate (ls.element.frame_number + j) →
      (chain_loop env hist stride fuel ls).outcome = Outcome.returned GstFlowReturn.OK
        ∧ (chain_loop env hist stride fuel ls).frames.map (fun f => f.offset)
            = List.range' ls.element.frame_number j
        ∧ ∀ f ∈ (chain_loop env hist stride fuel ls).frames,
            f.desired_offset_end = desired_offset_end env.fpsn env.fpsd rate f.offset
              ∧ f.desired_offset = desired_offset hist env.fpsn env.fpsd rate f.offset
              ∧ f.pushed = GstFlowReturn.OK := by
  intro j
  induction j with
  | zero =>
    intro fuel ls hfuel hok hrate hsum hlast _ hbound _ hbeyond
    obtain ⟨fuel1, rfl⟩ : ∃ f1, fuel = f1 + 1 := ⟨fuel - 1, by omega⟩
    have hs := desired_offset_eq hist env.fpsn env.fpsd rate ls.element.frame_number
    have hv := flush_vals env hist stride ls (by rw [hrate]; omega) (by omega)
    rw [hrate] at hv
    rw [Nat.add_zero] at hbeyond
    have hstep : chain_iter_flat env hist stride ls
        = Step.done (loop_flush env hist stride ls) [] (Outcome.returned GstFlowReturn.OK) := by
      unfold chain_iter_flat
      simp only [hrate]
      rw [if_neg (by omega), if_pos]
      rw [hv.1]
      omega
    unfold chain_loop
    rw [chain_iter_eq_flat env hist stride ls hok, hstep]
    simp
  | succ j ih =>
    intro fuel ls hfuel hok hrate hsum hlast hwrap hbound hbefore hbeyond
    obtain ⟨fuel1, rfl⟩ : ∃ f1, fuel = f1 + 1 := ⟨fuel - 1, by omega⟩
    have hs := desired_offset_eq hist env.fpsn env.fpsd rate ls.element.frame_number
    have hv := flush_vals env hist stride ls (by rw [hrate]; omega) (by omega)
    rw [hrate] at hv
    have hnow := hbefore 0 (by omega)
    rw [Nat.add_zero] at hnow
    have hstep : chain_iter_flat env hist stride ls
        = Step.more (bump_frame (loop_flush env hist stride ls))
            (loop_frame env hist stride ls) := by
      unfold chain_iter_flat
      simp only [hrate]
      rw [if_neg (by omega), if_neg, if_neg (by simp [halloc]), if_neg (by simp [hpush])]
      rw [hv.1]
      omega
    have hcfg := loop_flush_config env hist stride ls
    have hfn : (bump_frame (loop_flush env hist stride ls)).element.frame_number
        = ls.element.frame_number + 1 := by
      simp only [bump_frame, hcfg.2]
      exact to_guint64_of_lt (by omega)
    have hmono := desired_offset_mono hist env.fpsn env.fpsd rate
      (Nat.le_add_right ls.element.frame_number 1)
    obtain ⟨i1, i2, i3⟩ := ih fuel1 (bump_frame (loop_flush env hist stride ls)) (by omega)
      (bump_frame_ok (loop_flush_ok env hist hok))
      (hcfg.1.2.2.2.1.trans hrate)
      (by
        show (loop_flush env hist stride ls).element.last_offset_end
          + (loop_flush env hist stride ls).available_samples = N
        rw [hv.1, hv.2]
        omega)
      (by
        rw [hfn]
        show (loop_flush env hist stride ls).element.last_offset_end ≤ _
        rw [hv.2]
        omega)
      (by rw [hfn]; omega)
      (by
        rw [hfn]
        have := hjump ls.element.frame_number
        omega)
      (by
        intro i hi
        rw [hfn]
        have := hbefore (i + 1) (by omega)
        rw [show ls.element.frame_number + 1 + i = ls.element.frame_number + (i + 1) by omega]
        exact this)
      (by
        rw [hfn, show ls.element.frame_number + 1 + j = ls.element.frame_number + (j + 1) by omega]
        exact hbeyond)
    unfold chain_loop
    rw [chain_iter_eq_flat env hist stride ls hok, hstep]
    simp only [List.map_cons, List.mem_cons]
    refine ⟨i1, ?_, ?_⟩
    · rw [i2, hfn]
      simp [loop_frame, List.range'_succ]
    · intro f hf
      rcases hf with rfl | hf
      · simp [loop_frame, hrate, hpush]
      · exact i3 f hf

theorem stride_bytes_ge (nchannels : Int) (h : 0 < stride_bytes nchannels) :
    8 ≤ stride_bytes nchannels := by
  unfold stride_bytes at *
  omega

theorem chain_accept_new {α : Type} (e0 : CairoVisWaterfall α) (inbuf : GstBuffer α) :
    chain_accept (instance_init e0) inbuf
      = { e0 with
          adapter := inbuf.data
          t0 := inbuf.timestamp
          offset0 := inbuf.offset
          last_offset_end := 0
          frame_number := 0 } := by
  simp [chain_accept, instance_init]

theorem loop_flush_le {α : Type} (env : Env) (hist stride : Nat) (ls : Locals α)
    (h : ls.element.last_offset_end
      ≤ desired_offset hist env.fpsn env.fpsd ls.element.rate ls.element.frame_number) :
    (loop_flush env hist stride ls).element.last_offset_end
      ≤ desired_offset hist env.fpsn env.fpsd ls.element.rate ls.element.frame_number := by
  unfold loop_flush
  simp only
  generalize desired_offset hist env.fpsn env.fpsd ls.element.rate ls.element.frame_number
    = s at *
  split_ifs with hlt
  · simp only [after_flush, to_guint64]
    have h1 := to_guint_le (s - ls.element.last_offset_end)
    have h2 := Nat.mod_le
      (ls.element.last_offset_end
        + min (to_guint (s - ls.element.last_offset_end)) ls.available_samples) (2 ^ 64)
    omega
  · exact h

/-- With `history_samples = 0` and a downstream that accepts every frame, every pass of
the loop draws a frame and goes on: once `last_offset_end` is not beyond the window
start, the loop is still running after any number of passes that does not wrap the
64-bit frame counter. -/
theorem chain_loop_spin {α : Type} (env : Env) (stride : Nat) (rate : Int)
    (halloc : ∀ k, env.alloc k = GstFlowReturn.OK)
    (hpush : ∀ k, env.push k = GstFlowReturn.OK) :
    ∀ (fuel : Nat) (ls : Locals α), LocalsOk stride ls → ls.element.rate = rate →
      (0 < fuel → ls.element.last_offset_end
        ≤ desired_offset 0 env.fpsn env.fpsd rate ls.element.frame_number) →
      ls.element.frame_number + fuel ≤ 2 ^ 64 →
      (chain_loop env 0 stride fuel ls).outcome = Outcome.running
        ∧ (chain_loop env 0 stride fuel ls).frames.length = fuel := by
  intro fuel
  induction fuel with
  | zero =>
    intro ls _ _ _ _
    simp [chain_loop]
  | succ n ih =>
    intro ls hok hrate hlast hwrap
    have hl := hlast (Nat.succ_pos n)
    have hs := desired_offset_eq 0 env.fpsn env.fpsd rate ls.element.frame_number
    have hstep : chain_iter_flat env 0 stride ls
        = Step.more (bump_frame (loop_flush env 0 stride ls))
            (loop_frame env 0 stride ls) := by
      unfold chain_iter_flat
      simp only [hrate]
      rw [if_neg (by omega), if_neg (by omega), if_neg (by simp [halloc]),
        if_neg (by simp [hpush])]
    have hcfg := loop_flush_config env 0 stride ls
    have hle := loop_flush_le env 0 stride ls (by rw [hrate]; exact hl)
    rw [hrate] at hle
    obtain ⟨i1, i2⟩ := ih (bump_frame (loop_flush env 0 stride ls))
      (bump_frame_ok (loop_flush_ok env 0 hok))
      (hcfg.1.2.2.2.1.trans hrate)
      (by
        intro hn
        have hfn : (bump_frame (loop_flush env 0 stride ls)).element.frame_number
            = ls.element.frame_number + 1 := by
          simp only [bump_frame, hcfg.2]
          exact to_guint64_of_lt (by omega)
        rw [hfn]
        have hmono := desired_offset_mono 0 env.fpsn env.fpsd rate
          (Nat.le_add_right ls.element.frame_number 1)
        exact le_trans hle hmono)
      (by
        have hfn : (bump_frame (loop_flush env 0 stride ls)).element.frame_number
            ≤ ls.element.frame_number + 1 := by
          simp only [bump_frame, hcfg.2, to_guint64]
          exact Nat.mod_le _ _
        omega)
    unfold chain_loop
    rw [chain_iter_eq_flat env 0 stride ls hok, hstep]
    simp only [List.length_cons]
    exact ⟨i1, by rw [i2]⟩

/-! ### Frames drawn from an arbitrary element state -/

theorem flush_vals_any {α : Type} (env : Env) (hist stride : Nat) (ls : Locals α)
    (htr : desired_offset hist env.fpsn env.fpsd ls.element.rate ls.element.frame_number
        - ls.element.last_offset_end < 2 ^ 32) :
    (loop_flush env hist stride ls).available_samples
        = ls.available_samples
          - min (desired_offset hist env.fpsn env.fpsd ls.element.rate ls.element.frame_number
              - ls.element.last_offset_end) ls.available_samples
      ∧ (loop_flush env hist stride ls).element.last_offset_end
        = if ls.element.last_offset_end
              < desired_offset hist env.fpsn env.fpsd ls.element.rate ls.element.frame_number
          then
            to_guint64 (ls.element.last_offset_end
              + min (desired_offset hist env.fpsn env.fpsd ls.element.rate
                    ls.element.frame_number - ls.element.last_offset_end)
                  ls.available_samples)
          else ls.element.last_offset_end := by
  unfold loop_flush
  simp only
  generalize desired_offset hist env.fpsn env.fpsd ls.element.rate ls.element.frame_number
    = s at *
  split_ifs with hlt
  · simp only [after_flush]
    rw [to_guint_of_lt htr]
    exact ⟨rfl, rfl⟩
  · have : s - ls.element.last_offset_end = 0 := by omega
    rw [this]
    simp

theorem loop_frame_buffered {α : Type} (env : Env) (hist : Nat) {stride : Nat}
    {ls : Locals α} (h : LocalsOk stride ls)
    (hge : ¬ desired_offset hist env.fpsn env.fpsd ls.element.rate ls.element.frame_number
        < ls.element.last_offset_end)
    (hav : ¬ (loop_flush env hist stride ls).available_samples
        < desired_offset_end env.fpsn env.fpsd ls.element.rate ls.element.frame_number
          - desired_offset hist env.fpsn env.fpsd ls.element.rate ls.element.frame_number) :
    FrameBuffered stride (loop_frame env hist stride ls) := by
  obtain ⟨h1, h2, _, _⟩ := loop_flush_ok env hist h
  have he := desired_offset_end_lt env.fpsn env.fpsd ls.element.rate ls.element.frame_number
  have hs := desired_offset_eq hist env.fpsn env.fpsd ls.element.rate ls.element.frame_number
  intro hne htr
  simp only [loop_frame] at hne htr ⊢
  obtain ⟨v1, v2⟩ := flush_vals_any env hist stride ls htr
  generalize desired_offset hist env.fpsn env.fpsd ls.element.rate ls.element.frame_number
    = s at *
  generalize desired_offset_end env.fpsn env.fpsd ls.element.rate ls.element.frame_number
    = e at *
  have hlast : (loop_flush env hist stride ls).element.last_offset_end = s := by
    rw [v2]
    split_ifs with hlt
    · have hmin : min (s - ls.element.last_offset_end) ls.available_samples
          = s - ls.element.last_offset_end := by omega
      rw [hmin]
      have : ls.element.last_offset_end + (s - ls.element.last_offset_end) = s := by omega
      rw [this]
      exact to_guint64_of_lt (by omega)
    · omega
  have hm : (e - s) * stride ≤ (loop_flush env hist stride ls).available_samples * stride :=
    Nat.mul_le_mul_right _ (by omega)
  refine ⟨hlast, by omega, ?_⟩
  rw [if_pos (by omega)]
  refine ⟨_, rfl, ?_⟩
  rw [List.length_take]
  omega

/-- From any element state, every frame that `sink_chain` draws satisfies
`FrameBuffered`. -/
theorem sink_chain_buffered {α : Type} (fuel : Nat) (env : Env)
    (element : CairoVisWaterfall α) (inbuf : GstBuffer α) :
    ∀ f ∈ (sink_chain fuel env element inbuf).frames,
      FrameBuffered (stride_bytes element.nchannels) f := by
  have hn := (chain_accept_config element inbuf).2.2.1
  unfold sink_chain
  simp only
  split_ifs
  · simp
  · simp
  · simp
  · rw [← hn]
    have key := chain_loop_inv env
      (history_samples (chain_accept element inbuf).history (chain_accept element inbuf).rate)
      (stride_bytes (chain_accept element inbuf).nchannels)
      (fun l => LocalsOk (stride_bytes (chain_accept element inbuf).nchannels) l)
      (FrameBuffered (stride_bytes (chain_accept element inbuf).nchannels))
      (fun l hl => hl)
      (by
        intro l l1 fs o h1 hstep
        obtain ⟨g1, g2⟩ := flat_done_inv hstep
        rcases g2 with ⟨rfl, rfl⟩ | ⟨hge, rfl, hfs⟩
        · exact ⟨h1, by simp, g1⟩
        · refine ⟨loop_flush_ok env _ h1, ?_, g1⟩
          rcases hfs with rfl | ⟨rfl, hav, _⟩
          · simp
          · intro f hf
            rw [List.mem_singleton] at hf
            rw [hf]
            exact loop_frame_buffered env _ h1 hge hav)
      (by
        intro l l1 f h1 hstep
        obtain ⟨hge, hav, _, _, rfl, rfl⟩ := flat_more_inv hstep
        exact ⟨bump_frame_ok (loop_flush_ok env _ h1), loop_frame_buffered env _ h1 hge hav⟩)
      fuel (chain_locals (chain_accept element inbuf))
      (chain_locals_ok (chain_accept element inbuf)).1
    exact key.2.1

/-! ## Malformed input (C9) -/

/-- C9: a buffer with an unset timestamp, duration, offset or end offset makes
`sink_chain` return `GST_FLOW_ERROR` with no frame and the element unchanged (nothing is
appended; `t0`, `offset0`, `last_offset_end`, `frame_number` and the adapter are as
before), for every element state and every fuel. A buffer with all four fields set
passes this test: unless a logarithmic axis is configured, it is appended to the
adapter (the adapter afterwards is a suffix of the old content followed by the
payload), and when negotiation fails the call returns `GST_FLOW_NOT_NEGOTIATED`. -/
theorem C9_invalid_buffer {α : Type} (fuel : Nat) (env : Env)
    (element : CairoVisWaterfall α) (inbuf : GstBuffer α) :
    ((inbuf.timestamp = GST_CLOCK_TIME_NONE ∨ inbuf.duration = GST_CLOCK_TIME_NONE
        ∨ inbuf.offset = GST_BUFFER_OFFSET_NONE
        ∨ inbuf.offset_end = GST_BUFFER_OFFSET_NONE) →
      sink_chain fuel env element inbuf
        = { element := element, frames := [],
            outcome := Outcome.returned GstFlowReturn.ERROR })
    ∧ ((inbuf.timestamp ≠ GST_CLOCK_TIME_NONE ∧ inbuf.duration ≠ GST_CLOCK_TIME_NONE
        ∧ inbuf.offset ≠ GST_BUFFER_OFFSET_NONE
        ∧ inbuf.offset_end ≠ GST_BUFFER_OFFSET_NONE) →
      element.xscale = 0 → element.yscale = 0 →
      (∃ m, (sink_chain fuel env element inbuf).element.adapter
          = (element.adapter ++ inbuf.data).drop m)
        ∧ (env.negotiate = false →
            (sink_chain fuel env element inbuf).outcome
              = Outcome.returned GstFlowReturn.NOT_NEGOTIATED)) := by
  constructor
  · intro hbad
    have hv : buffer_is_valid inbuf = false := by
      rw [← Bool.not_eq_true, buffer_is_valid_iff]
      tauto
    unfold sink_chain
    split_ifs
    · rfl
    · rfl
  · intro hgood hx hy
    have hv : buffer_is_valid inbuf = true := (buffer_is_valid_iff inbuf).mpr hgood
    unfold sink_chain
    rw [if_neg (by simp [hx, hy]), if_neg (by simp [hv])]
    simp only
    split_ifs with hneg
    · exact ⟨⟨0, by simp [chain_accept_adapter]⟩, fun _ => rfl⟩
    · obtain ⟨_, _, m, hm⟩ := chain_loop_safe env
        (history_samples (chain_accept element inbuf).history (chain_accept element inbuf).rate)
        (stride_bytes (chain_accept element inbuf).nchannels) fuel
        (chain_locals (chain_accept element inbuf))
        (chain_locals_ok (chain_accept element inbuf)).1
      refine ⟨⟨m, ?_⟩, fun hf => absurd hf hneg⟩
      rw [hm]
      show List.drop m (chain_accept element inbuf).adapter = _
      rw [chain_accept_adapter]

/-- C9, witness: a buffer without a timestamp is refused, and a complete buffer is
appended when negotiation fails. -/
theorem C9_invalid_buffer_witness :
    sink_chain 5
        { negotiate := true, fpsn := 1, fpsd := 1, alloc := fun _ => GstFlowReturn.OK,
          push := fun _ => GstFlowReturn.OK }
        ({ xscale := 0, yscale := 0, nchannels := 2, rate := 4, adapter := [1, 2, 3],
           t0 := 0, offset0 := 0, last_offset_end := 4, frame_number := 3,
           history := 2000000000 } : CairoVisWaterfall Nat)
        { data := [7], timestamp := GST_CLOCK_TIME_NONE, duration := 1, offset := 8,
          offset_end := 9 }
      = { element :=
            { xscale := 0, yscale := 0, nchannels := 2, rate := 4, adapter := [1, 2, 3],
              t0 := 0, offset0 := 0, last_offset_end := 4, frame_number := 3,
              history := 2000000000 },
          frames := [], outcome := Outcome.returned GstFlowReturn.ERROR }
    ∧ (sink_chain 5
        { negotiate := false, fpsn := 1, fpsd := 1, alloc := fun _ => GstFlowReturn.OK,
          push := fun _ => GstFlowReturn.OK }
        ({ xscale := 0, yscale := 0, nchannels := 2, rate := 4, adapter := [1, 2, 3],
           t0 := 0, offset0 := 0, last_offset_end := 4, frame_number := 3,
           history := 2000000000 } : CairoVisWaterfall Nat)
        { data := [7], timestamp := 5, duration := 1, offset := 8,
          offset_end := 9 }).outcome = Outcome.returned GstFlowReturn.NOT_NEGOTIATED :=
  ⟨(C9_invalid_buffer 5 _ _ _).1 (Or.inl rfl),
    ((C9_invalid_buffer 5 _ _ _).2 (by decide) rfl rfl).2 rfl⟩

/-! ## Adapter safety (C6) -/

/-- C6: no `sink_chain` call, from any element state, asks the adapter to flush or to
peek more bytes than it holds. Over a stream of calls on a new element that appends
fewer than `2 ^ 64` bytes, once the origin is set `last_offset_end` counts samples that
were appended (its byte position is inside the appended stream, so it is at most the
number of whole samples appended), and a call never moves it back. -/
theorem C6_adapter_safety {α : Type} (e0 : CairoVisWaterfall α) (calls : List (Call α))
    (c : Call α) :
    (∀ (fuel : Nat) (env : Env) (element : CairoVisWaterfall α) (inbuf : GstBuffer α),
        (sink_chain fuel env element inbuf).outcome ≠ Outcome.adapter_fault)
      ∧ ((appended (instance_init e0) (calls ++ [c])).length < 2 ^ 64 →
          ((chain_run (instance_init e0) (calls ++ [c])).1.t0 ≠ GST_CLOCK_TIME_NONE →
              (chain_run (instance_init e0) (calls ++ [c])).1.last_offset_end
                  * stride_bytes e0.nchannels
                ≤ (appended (instance_init e0) (calls ++ [c])).length
              ∧ (0 < stride_bytes e0.nchannels →
                  (chain_run (instance_init e0) (calls ++ [c])).1.last_offset_end
                    ≤ (appended (instance_init e0) (calls ++ [c])).length
                        / stride_bytes e0.nchannels))
            ∧ ((chain_run (instance_init e0) calls).1.t0 ≠ GST_CLOCK_TIME_NONE →
                (chain_run (instance_init e0) calls).1.last_offset_end
                  ≤ (chain_run (instance_init e0) (calls ++ [c])).1.last_offset_end)) := by
  refine ⟨sink_chain_no_fault, ?_⟩
  intro hlen
  obtain ⟨r1, _, r3, r4⟩ := run_last_call e0 calls c hlen
  rw [chain_run_snoc]
  simp only
  refine ⟨?_, r3⟩
  intro ht
  rcases r1 with ⟨h1, _, _⟩ | ⟨_, _, h3, _⟩
  · exact absurd h1 ht
  · rw [r4] at h3
    refine ⟨h3, ?_⟩
    intro hpos
    exact (Nat.le_div_iff_mul_le hpos).mpr h3

/-- C6, witness: the scenario call made twice. -/
theorem C6_adapter_safety_witness :
    (chain_run (scenario_element 2000000000)
          ([scenario_call] ++ [scenario_call])).1.last_offset_end * stride_bytes 2
        ≤ (appended (scenario_element 2000000000) ([scenario_call] ++ [scenario_call])).length
      ∧ (chain_run (scenario_element 2000000000) [scenario_call]).1.last_offset_end
        ≤ (chain_run (scenario_element 2000000000)
            ([scenario_call] ++ [scenario_call])).1.last_offset_end :=
  ⟨(((C6_adapter_safety (scenario_memory 2000000000) [scenario_call] scenario_call).2
      (by decide)).1 (by decide)).1,
    ((C6_adapter_safety (scenario_memory 2000000000) [scenario_call] scenario_call).2
      (by decide)).2 (by decide)⟩

/-! ## Window residency (C5) -/

/-- C5, counterexample: with `sink_setcaps` between the scenario buffer and a second
buffer, `sink_chain` draws frame 3 with the non-empty window `[4, 12)` and an
untruncated flush request, and the bytes it peeked are those of the second buffer
alone, not the bytes that the stream received since the origin has at sample offsets
`[4, 12)`. -/
theorem C5_counterexample :
    scenario_frame_after_caps
        ∈ (sink_chain 10 scenario_env (sink_setcaps scenario_streaming scenario_caps).1
            scenario_buffer_2).frames
      ∧ scenario_frame_after_caps.desired_offset < scenario_frame_after_caps.desired_offset_end
      ∧ scenario_frame_after_caps.desired_offset
          - scenario_frame_after_caps.entry_last_offset_end < 2 ^ 32
      ∧ scenario_frame_after_caps.data
          ≠ some (((scenario_buffer.data ++ scenario_buffer_2.data).drop
              (scenario_frame_after_caps.desired_offset * stride_bytes 2)).take
                ((scenario_frame_after_caps.desired_offset_end
                    - scenario_frame_after_caps.desired_offset) * stride_bytes 2)) := by
  decide

/-- C5, as amended. From every element state (also after `sink_setcaps`), every frame
that `sink_chain` draws with a non-empty window `[s, e)`, and whose flush request
`s - last_offset_end` was not truncated to 32 bits, is drawn with `last_offset_end = s`
and at least `e - s` samples buffered, and the peek gives the `e - s` samples at the
head of the adapter; so a flush that was clamped and stopped before `s` never comes
with a non-empty window.
When the element has had `sink_chain` calls only since it was made (caps set before the
first buffer count as part of making it: `sink_setcaps` on a new element gives a new
element), and fewer than `2 ^ 64` bytes were appended, then moreover `e` lies inside the
stream received so far and the peeked bytes are exactly the bytes of that stream at
sample offsets `[s, e)`. -/
theorem C5_window_resident {α : Type} :
    (∀ (fuel : Nat) (env : Env) (element : CairoVisWaterfall α) (inbuf : GstBuffer α)
        (f : Frame α),
        f ∈ (sink_chain fuel env element inbuf).frames →
        f.desired_offset < f.desired_offset_end →
        f.desired_offset - f.entry_last_offset_end < 2 ^ 32 →
        f.last_offset_end = f.desired_offset
          ∧ f.desired_offset_end - f.desired_offset ≤ f.available_samples
          ∧ ∃ d, f.data = some d
              ∧ d.length
                = (f.desired_offset_end - f.desired_offset) * stride_bytes element.nchannels)
      ∧ (∀ (e0 : CairoVisWaterfall α) (caps : GstCaps),
          (sink_setcaps (instance_init e0) caps).1 = instance_init (sink_setcaps e0 caps).1)
      ∧ (∀ (e0 : CairoVisWaterfall α) (calls : List (Call α)) (c : Call α) (f : Frame α),
          (appended (instance_init e0) (calls ++ [c])).length < 2 ^ 64 →
          f ∈ (sink_chain c.fuel c.env (chain_run (instance_init e0) calls).1 c.inbuf).frames →
          f.desired_offset < f.desired_offset_end →
          f.desired_offset - f.entry_last_offset_end < 2 ^ 32 →
          f.last_offset_end = f.desired_offset
            ∧ f.desired_offset_end - f.desired_offset ≤ f.available_samples
            ∧ f.desired_offset_end * stride_bytes e0.nchannels
                ≤ (appended (instance_init e0) (calls ++ [c])).length
            ∧ f.desired_offset_end
                ≤ (appended (instance_init e0) (calls ++ [c])).length
                    / stride_bytes e0.nchannels
            ∧ f.data = some (((appended (instance_init e0) (calls ++ [c])).drop
                  (f.desired_offset * stride_bytes e0.nchannels)).take
                    ((f.desired_offset_end - f.desired_offset)
                      * stride_bytes e0.nchannels))) := by
  refine ⟨?_, ?_, ?_⟩
  · intro fuel env element inbuf f hf hne htr
    exact sink_chain_buffered fuel env element inbuf f hf hne htr
  · intro e0 caps
    rfl
  · intro e0 calls c f hlen hf hne htr
    obtain ⟨_, r2, _, _⟩ := run_last_call e0 calls c hlen
    obtain ⟨g1, g2, g3, g4, hpos⟩ := r2 f hf hne htr
    exact ⟨g1, g2, g3, (Nat.le_div_iff_mul_le hpos).mpr g3, g4⟩

/-- C5, witness: the frame drawn after `sink_setcaps` still has `last_offset_end = s`
and its window buffered; and frame 3 of the stream "scenario call with frame 1 refused,
then the second buffer", drawn after a flush of 4 samples, holds the bytes of the
stream at `[4, 12)`, which come from both buffers. -/
theorem C5_window_resident_witness :
    (scenario_frame_after_caps.last_offset_end = scenario_frame_after_caps.desired_offset
        ∧ scenario_frame_after_caps.desired_offset_end
            - scenario_frame_after_caps.desired_offset
          ≤ scenario_frame_after_caps.available_samples
        ∧ ∃ d, scenario_frame_after_caps.data = some d
            ∧ d.length
              = (scenario_frame_after_caps.desired_offset_end
                  - scenario_frame_after_caps.desired_offset) * stride_bytes 2)
      ∧ (scenario_frame_3.last_offset_end = scenario_frame_3.desired_offset
        ∧ scenario_frame_3.desired_offset_end - scenario_frame_3.desired_offset
            ≤ scenario_frame_3.available_samples
        ∧ scenario_frame_3.desired_offset_end * stride_bytes 2
            ≤ (appended (scenario_element 2000000000)
                ([scenario_call_refused] ++ [scenario_call_2])).length
        ∧ scenario_frame_3.desired_offset_end
            ≤ (appended (scenario_element 2000000000)
                ([scenario_call_refused] ++ [scenario_call_2])).length / stride_bytes 2
        ∧ scenario_frame_3.data
            = some (((appended (scenario_element 2000000000)
                ([scenario_call_refused] ++ [scenario_call_2])).drop
                  (scenario_frame_3.desired_offset * stride_bytes 2)).take
                    ((scenario_frame_3.desired_offset_end - scenario_frame_3.desired_offset)
                      * stride_bytes 2))) :=
  ⟨C5_window_resident.1 10 scenario_env (sink_setcaps scenario_streaming scenario_caps).1
      scenario_buffer_2 scenario_frame_after_caps (by decide) (by decide) (by decide),
    C5_window_resident.2.2 (scenario_memory 2000000000) [scenario_call_refused]
      scenario_call_2 scenario_frame_3 (by decide) (by decide) (by decide) (by decide)⟩

/-! ## Frame numbering (C1) -/

/-- C1: over any sequence of `sink_chain` calls on a new element, the frames that
downstream accepted carry `GST_BUFFER_OFFSET` 0, 1, 2, ... in emission order, each with
`GST_BUFFER_OFFSET_END = GST_BUFFER_OFFSET + 1`, and once the origin is set
`frame_number` is the number of frames accepted so far (as long as fewer than `2 ^ 64`
frames were accepted, the range of the 64-bit counter). -/
theorem C1_frame_numbering {α : Type} (e0 : CairoVisWaterfall α) (calls : List (Call α))
    (hcount : (pushed_ok (chain_run (instance_init e0) calls).2).length < 2 ^ 64) :
    (pushed_ok (chain_run (instance_init e0) calls).2).map (fun f => f.offset)
        = List.range (pushed_ok (chain_run (instance_init e0) calls).2).length
      ∧ (∀ f ∈ pushed_ok (chain_run (instance_init e0) calls).2, f.offset_end = f.offset + 1)
      ∧ ((chain_run (instance_init e0) calls).1.t0 ≠ GST_CLOCK_TIME_NONE →
          (chain_run (instance_init e0) calls).1.frame_number
            = (pushed_ok (chain_run (instance_init e0) calls).2).length) := by
  obtain ⟨h1, h2, h3⟩ := chain_run_numbering calls (instance_init e0) 0 (Or.inl ⟨rfl, rfl⟩)
  generalize hp : pushed_ok (chain_run (instance_init e0) calls).2 = p at *
  have hoff : p.map (fun f => f.offset) = List.range p.length := by
    rw [h1, List.range_eq_range']
    conv_rhs => rw [← List.map_id (List.range' 0 p.length)]
    apply List.map_congr_left
    intro j hj
    rw [List.mem_range'_1] at hj
    simp only [id]
    exact Nat.mod_eq_of_lt (by omega)
  refine ⟨hoff, ?_, ?_⟩
  · intro f hf
    have hmem : f ∈ (chain_run (instance_init e0) calls).2 := by
      rw [← hp] at hf
      exact (List.mem_filter.mp hf).1
    have hlt : f.offset < p.length := by
      have : f.offset ∈ p.map (fun f => f.offset) := List.mem_map_of_mem _ hf
      rw [hoff] at this
      exact List.mem_range.mp this
    rw [h2 f hmem]
    exact Nat.mod_eq_of_lt (by omega)
  · intro ht
    rw [h3 ht, Nat.zero_add]
    exact Nat.mod_eq_of_lt hcount

/-! ## One buffer on a new element (C3) -/

/-- C3, counterexample: in the scenario of the specification (rate 4, 2 channels, frame
rate 1/1, history 2 s, one buffer of 8 samples at timestamp 0) the call returns
`GST_FLOW_OK` after three frames, numbered 0, 1, 2 with windows `[0,0)`, `[0,4)` and
`[0,8)`: not the two frames with windows `[0,4)` and `[0,8)`, and frame 2 is drawn
although `(2 + 1) * 4 > 8`. -/
theorem C3_counterexample :
    (sink_chain 10 scenario_env (scenario_element 2000000000) scenario_buffer).outcome
        = Outcome.returned GstFlowReturn.OK
      ∧ (sink_chain 10 scenario_env (scenario_element 2000000000) scenario_buffer).frames.map
          (fun f => (f.offset, f.desired_offset, f.desired_offset_end))
        = [(0, 0, 0), (1, 0, 4), (2, 0, 8)]
      ∧ (sink_chain 10 scenario_env (scenario_element 2000000000) scenario_buffer).frames.map
          (fun f => (f.offset, f.desired_offset, f.desired_offset_end))
        ≠ [(0, 0, 4), (1, 0, 8)] := by
  decide

/-- C3, as amended: on a new element with a positive history sample count, one valid
buffer of `N` whole samples (with the machine quantities in range and a downstream that
accepts every frame) makes `sink_chain` draw exactly the frames `k` whose window end
`desired_offset_end k`, which is `k * rate * fpsd / fpsn` rounded to nearest, is at
most `N`, numbered 0, 1, 2, ... in order, each with the window
`[desired_offset k, desired_offset_end k)`, and then return `GST_FLOW_OK`. -/
theorem C3_single_buffer {α : Type} (fuel N : Nat) (env : Env) (e0 : CairoVisWaterfall α)
    (inbuf : GstBuffer α)
    (hx : e0.xscale = 0) (hy : e0.yscale = 0) (hvalid : buffer_is_valid inbuf = true)
    (hneg : env.negotiate = true)
    (halloc : ∀ k, env.alloc k = GstFlowReturn.OK)
    (hpush : ∀ k, env.push k = GstFlowReturn.OK)
    (hstride : 0 < stride_bytes e0.nchannels)
    (hdata : inbuf.data.length = N * stride_bytes e0.nchannels)
    (hsize : inbuf.data.length < 2 ^ 32)
    (hrate : 0 < e0.rate) (hn : 0 < env.fpsn) (hn2 : env.fpsn < 2 ^ 31) (hd : 0 < env.fpsd)
    (hfit : env.fpsd * e0.rate < 2 ^ 31)
    (hH : 0 < history_samples e0.history e0.rate)
    (hfuel : env.fpsn.toNat * (N + 1) < fuel) :
    (sink_chain fuel env (instance_init e0) inbuf).outcome
        = Outcome.returned GstFlowReturn.OK
      ∧ (sink_chain fuel env (instance_init e0) inbuf).frames.map (fun f => f.offset)
          = List.range (sink_chain fuel env (instance_init e0) inbuf).frames.length
      ∧ (∀ k, k < (sink_chain fuel env (instance_init e0) inbuf).frames.length
          ↔ desired_offset_end env.fpsn env.fpsd e0.rate k ≤ N)
      ∧ ∀ f ∈ (sink_chain fuel env (instance_init e0) inbuf).frames,
          f.desired_offset_end = desired_offset_end env.fpsn env.fpsd e0.rate f.offset
            ∧ f.desired_offset
                = desired_offset (history_samples e0.history e0.rate) env.fpsn env.fpsd
                    e0.rate f.offset
            ∧ f.pushed = GstFlowReturn.OK := by
  have h8 := stride_bytes_ge e0.nchannels hstride
  have hN : N < 2 ^ 29 := by
    have : N * 8 ≤ N * stride_bytes e0.nchannels := Nat.mul_le_mul_left _ h8
    omega
  obtain ⟨g0, gjump, gbig⟩ := desired_offset_end_growth env.fpsn env.fpsd e0.rate hrate hn hd hfit
  have hex : ∃ k, N < desired_offset_end env.fpsn env.fpsd e0.rate k :=
    ⟨_, gbig N (by omega)⟩
  have hm_spec := Nat.find_spec hex
  have hm_min : ∀ i, i < Nat.find hex → desired_offset_end env.fpsn env.fpsd e0.rate i ≤ N := by
    intro i hi
    exact not_lt.mp (Nat.find_min hex hi)
  have hm_le : Nat.find hex ≤ env.fpsn.toNat * (N + 1) := Nat.find_min' hex (gbig N (by omega))
  have hm_small : Nat.find hex < 2 ^ 62 := by
    have h1 : env.fpsn.toNat < 2 ^ 31 := by omega
    have h2 : env.fpsn.toNat * (N + 1) ≤ 2 ^ 31 * 2 ^ 29 :=
      Nat.mul_le_mul (le_of_lt h1) (by omega)
    have h3 : (2 : ℕ) ^ 31 * 2 ^ 29 = 2 ^ 60 := by norm_num
    omega
  generalize hmdef : Nat.find hex = m at *
  -- the state on entry to the loop
  have hacc := chain_accept_new e0 inbuf
  have hloc : (chain_locals (chain_accept (instance_init e0) inbuf)).element.rate = e0.rate
      ∧ (chain_locals (chain_accept (instance_init e0) inbuf)).element.frame_number = 0
      ∧ (chain_locals (chain_accept (instance_init e0) inbuf)).element.last_offset_end = 0
      ∧ (chain_locals (chain_accept (instance_init e0) inbuf)).available_samples = N := by
    rw [hacc]
    refine ⟨rfl, rfl, rfl, ?_⟩
    simp only [chain_locals, gst_adapter_available]
    rw [to_guint_of_lt hsize, hdata]
    exact Nat.mul_div_cancel _ hstride
  obtain ⟨l1, l2, l3, l4⟩ := hloc
  have hcfg := chain_accept_config (instance_init e0) inbuf
  have hhist : history_samples (chain_accept (instance_init e0) inbuf).history
      (chain_accept (instance_init e0) inbuf).rate = history_samples e0.history e0.rate := by
    rw [hcfg.2.2.2.1, hcfg.2.2.2.2]
    rfl
  have key := chain_loop_exact env (history_samples e0.history e0.rate)
    (stride_bytes (chain_accept (instance_init e0) inbuf).nchannels) N e0.rate halloc hpush hH
    (by omega) gjump m fuel (chain_locals (chain_accept (instance_init e0) inbuf))
    (by omega) (chain_locals_ok _).1 l1 (by rw [l3, l4, Nat.zero_add])
    (by rw [l3]; exact Nat.zero_le _) (by rw [l2]; omega) (by rw [l2, g0]; omega)
    (by
      intro i hi
      rw [l2, Nat.zero_add]
      exact hm_min i hi)
    (by rw [l2, Nat.zero_add]; exact hm_spec)
  rw [l2] at key
  have hsc : sink_chain fuel env (instance_init e0) inbuf
      = chain_loop env (history_samples e0.history e0.rate)
          (stride_bytes (chain_accept (instance_init e0) inbuf).nchannels) fuel
          (chain_locals (chain_accept (instance_init e0) inbuf)) := by
    unfold sink_chain
    have h1 : ¬ ((instance_init e0).xscale ≠ 0 ∨ (instance_init e0).yscale ≠ 0) := by
      simp [instance_init, hx, hy]
    rw [if_neg h1, if_neg (by simp [hvalid])]
    simp only
    rw [if_neg (by simp [hneg]), hhist]
  rw [hsc]
  obtain ⟨k1, k2, k3⟩ := key
  have hlen : (chain_loop env (history_samples e0.history e0.rate)
      (stride_bytes (chain_accept (instance_init e0) inbuf).nchannels) fuel
      (chain_locals (chain_accept (instance_init e0) inbuf))).frames.length = m := by
    have := congrArg List.length k2
    simpa using this
  rw [hlen]
  refine ⟨k1, ?_, ?_, k3⟩
  · rw [k2, List.range_eq_range']
  · intro k
    constructor
    · exact hm_min k
    · intro hk
      by_contra hge
      have := desired_offset_end_mono env.fpsn env.fpsd e0.rate (not_lt.mp hge)
      omega

/-- C3, witness: the scenario of the specification. -/
theorem C3_single_buffer_witness :
    (sink_chain 10 scenario_env (scenario_element 2000000000) scenario_buffer).outcome
        = Outcome.returned GstFlowReturn.OK
      ∧ (sink_chain 10 scenario_env (scenario_element 2000000000) scenario_buffer).frames.map
            (fun f => f.offset)
          = List.range
              (sink_chain 10 scenario_env (scenario_element 2000000000)
                scenario_buffer).frames.length :=
  ⟨(C3_single_buffer 10 8 scenario_env (scenario_memory 2000000000) scenario_buffer rfl rfl (by decide) rfl
      (fun _ => rfl) (fun _ => rfl) (by decide) (by decide) (by decide) (by decide) (by decide)
      (by decide) (by decide) (by decide) (by decide) (by decide)).1,
    (C3_single_buffer 10 8 scenario_env (scenario_memory 2000000000) scenario_buffer rfl rfl (by decide) rfl
      (fun _ => rfl) (fun _ => rfl) (by decide) (by decide) (by decide) (by decide) (by decide)
      (by decide) (by decide) (by decide) (by decide) (by decide)).2.1⟩

/-! ## Termination of the drain loop (C4) -/

/-- C4: when the history is 0 samples, a new element that gets any valid buffer, with
negotiation succeeding and downstream accepting every frame, does not leave the loop:
after `fuel` passes, for every `fuel` up to `2 ^ 64`, the call has drawn `fuel` frames
and is still running. -/
theorem C4_zero_history_never_returns {α : Type} (fuel : Nat) (env : Env)
    (e0 : CairoVisWaterfall α) (inbuf : GstBuffer α)
    (hx : e0.xscale = 0) (hy : e0.yscale = 0) (hvalid : buffer_is_valid inbuf = true)
    (hneg : env.negotiate = true)
    (halloc : ∀ k, env.alloc k = GstFlowReturn.OK)
    (hpush : ∀ k, env.push k = GstFlowReturn.OK)
    (hH : history_samples e0.history e0.rate = 0)
    (hfuel : fuel ≤ 2 ^ 64) :
    (sink_chain fuel env (instance_init e0) inbuf).outcome = Outcome.running
      ∧ (sink_chain fuel env (instance_init e0) inbuf).frames.length = fuel := by
  have hacc := chain_accept_new e0 inbuf
  have hcfg := chain_accept_config (instance_init e0) inbuf
  have hhist : history_samples (chain_accept (instance_init e0) inbuf).history
      (chain_accept (instance_init e0) inbuf).rate = 0 := by
    rw [hcfg.2.2.2.1, hcfg.2.2.2.2]
    exact hH
  have hloc : (chain_locals (chain_accept (instance_init e0) inbuf)).element.rate = e0.rate
      ∧ (chain_locals (chain_accept (instance_init e0) inbuf)).element.frame_number = 0
      ∧ (chain_locals (chain_accept (instance_init e0) inbuf)).element.last_offset_end = 0 := by
    rw [hacc]
    exact ⟨rfl, rfl, rfl⟩
  obtain ⟨l1, l2, l3⟩ := hloc
  have key := chain_loop_spin env
    (stride_bytes (chain_accept (instance_init e0) inbuf).nchannels) e0.rate halloc hpush
    fuel (chain_locals (chain_accept (instance_init e0) inbuf)) (chain_locals_ok _).1 l1
    (by intro _; rw [l3]; exact Nat.zero_le _) (by rw [l2]; omega)
  unfold sink_chain
  have h1 : ¬ ((instance_init e0).xscale ≠ 0 ∨ (instance_init e0).yscale ≠ 0) := by
    simp [instance_init, hx, hy]
  rw [if_neg h1, if_neg (by simp [hvalid])]
  simp only
  rw [if_neg (by simp [hneg]), hhist]
  exact key

/-- C4, witness: the scenario element with history 0, after 1000 passes. -/
theorem C4_zero_history_never_returns_witness :
    (sink_chain 1000 scenario_env (scenario_element 0) scenario_buffer).outcome
        = Outcome.running
      ∧ (sink_chain 1000 scenario_env (scenario_element 0) scenario_buffer).frames.length
        = 1000 :=
  C4_zero_history_never_returns 1000 scenario_env (scenario_memory 0) scenario_buffer rfl rfl (by decide) rfl
    (fun _ => rfl) (fun _ => rfl) (by decide) (by decide)

/-- C1, witness: the scenario call with frame 1 refused, then the scenario call again. -/
theorem C1_frame_numbering_witness :
    (pushed_ok (chain_run (scenario_element 2000000000)
          [scenario_call_refused, scenario_call]).2).map (fun f => f.offset)
        = List.range (pushed_ok (chain_run (scenario_element 2000000000)
            [scenario_call_refused, scenario_call]).2).length
      ∧ (chain_run (scenario_element 2000000000)
            [scenario_call_refused, scenario_call]).1.frame_number
          = (pushed_ok (chain_run (scenario_element 2000000000)
              [scenario_call_refused, scenario_call]).2).length :=
  ⟨(C1_frame_numbering (scenario_memory 2000000000) [scenario_call_refused, scenario_call]
      (by decide)).1,
    (C1_frame_numbering (scenario_memory 2000000000) [scenario_call_refused, scenario_call]
      (by decide)).2.2 (by decide)⟩

end CairoVis
